import Mathlib

/-!
Verification of the multisig contract (`src/multisig/src/lib.rs`) against its
natural-language specification.

The contract state and every operation are shallowly embedded: `UnorderedMap`
becomes an association list, `UnorderedSet` a duplicate-free list, `HashSet`
a list of strings with membership-guarded insertion (matching the code, which
checks `contains` before inserting), panics become `Except.error` with the
source's message (a panic aborts the whole call with no state change, so an
`error` result carries no successor state), and `Promise` chains become an
explicit receiver plus an ordered list of promise actions.
-/

deriving instance DecidableEq for Except

namespace Multisig

/-- Unlimited allowance for multisig keys (`DEFAULT_ALLOWANCE`). -/
def DEFAULT_ALLOWANCE : Nat := 0

/-- Request cooldown period in nanoseconds (`REQUEST_COOLDOWN`). -/
def REQUEST_COOLDOWN : Nat := 900000000000

/-- Method names granted to multisig access keys (`MULTISIG_METHOD_NAMES`). -/
def MULTISIG_METHOD_NAMES : String := "add_request,delete_request,confirm,add_and_confirm_request"

/-- Member of the multisig (`MultisigMember`): an access key or an account. -/
inductive MultisigMember where
  | AccessKey (public_key : String)
  | Account (account_id : String)
deriving DecidableEq, Repr

/-- Canonical string form of a member (`MultisigMember::to_string`), the JSON
serialization produced by serde with `untagged`. -/
def memberKey : MultisigMember → String
  | .AccessKey pk => "\x7b\"public_key\":\"" ++ pk ++ "\"\x7d"
  | .Account aid => "\x7b\"account_id\":\"" ++ aid ++ "\"\x7d"

/-- Permissions for a function-call access key (`FunctionCallPermission`). -/
structure FunctionCallPermission where
  allowance : Option Nat
  receiver_id : String
  method_names : List String
deriving DecidableEq, Repr

/-- Lowest-level action performed by the multisig (`MultiSigRequestAction`). -/
inductive MultiSigRequestAction where
  | Transfer (amount : Nat)
  | CreateAccount
  | DeployContract (code : List Nat)
  | AddMember (member : MultisigMember)
  | DeleteMember (member : MultisigMember)
  | AddKey (public_key : String) (permission : Option FunctionCallPermission)
  | FunctionCall (method_name : String) (args : List Nat) (deposit : Nat) (gas : Nat)
  | SetNumConfirmations (num_confirmations : Nat)
  | SetActiveRequestsLimit (active_requests_limit : Nat)
deriving DecidableEq, Repr

/-- A request: receiving account plus the actions to execute (`MultiSigRequest`). -/
structure MultiSigRequest where
  receiver_id : String
  actions : List MultiSigRequestAction
deriving DecidableEq, Repr

/-- A stored request together with its submitter and creation timestamp
(`MultiSigRequestWithSigner`). -/
structure MultiSigRequestWithSigner where
  request : MultiSigRequest
  member : MultisigMember
  added_timestamp : Nat
deriving DecidableEq, Repr

/-- One action appended to a promise chain, mirroring the `near_sdk::Promise`
combinators used by the contract. -/
inductive PromiseAction where
  | transfer (amount : Nat)
  | create_account
  | deploy_contract (code : List Nat)
  | add_access_key (public_key : String) (allowance : Nat) (receiver_id : String)
      (method_names : String)
  | add_full_access_key (public_key : String)
  | delete_key (public_key : String)
  | function_call (method_name : String) (args : List Nat) (deposit : Nat) (gas : Nat)
deriving DecidableEq, Repr

/-- A promise chain: the receiver it targets and its actions in order. -/
structure Promise where
  receiver_id : String
  actions : List PromiseAction
deriving DecidableEq, Repr

/-- `Promise::new`. -/
def Promise.new (receiver_id : String) : Promise := ⟨receiver_id, []⟩

/-- Append one action to a promise chain. -/
def Promise.push (p : Promise) (a : PromiseAction) : Promise :=
  ⟨p.receiver_id, p.actions ++ [a]⟩

/-- `PromiseOrValue<bool>`. -/
inductive PromiseOrValue where
  | promise (p : Promise)
  | value (b : Bool)
deriving DecidableEq, Repr

/-- The host-environment inputs a single call observes (`env::current_account_id`,
`env::predecessor_account_id`, `env::signer_account_pk`, `env::block_timestamp`). -/
structure Ctx where
  current_account_id : String
  predecessor_account_id : String
  signer_account_pk : String
  block_timestamp : Nat
deriving DecidableEq, Repr

/-- Association-list lookup, modelling `UnorderedMap::get`. -/
def alookup {K V : Type} [DecidableEq K] (k : K) : List (K × V) → Option V
  | [] => none
  | (k', v) :: rest => if k' = k then some v else alookup k rest

/-- Association-list insert-or-replace, modelling `UnorderedMap::insert`. -/
def ainsert {K V : Type} [DecidableEq K] (k : K) (v : V) : List (K × V) → List (K × V)
  | [] => [(k, v)]
  | (k', v') :: rest => if k' = k then (k, v) :: rest else (k', v') :: ainsert k v rest

/-- Association-list removal, modelling `UnorderedMap::remove`. -/
def aremove {K V : Type} [DecidableEq K] (k : K) : List (K × V) → List (K × V)
  | [] => []
  | (k', v') :: rest => if k' = k then aremove k rest else (k', v') :: aremove k rest

/-- Set insertion, modelling `UnorderedSet::insert` (no-op when present). -/
def setInsert {A : Type} [DecidableEq A] (a : A) (l : List A) : List A :=
  if a ∈ l then l else l ++ [a]

/-- Set removal, modelling `UnorderedSet::remove`. -/
def setRemove {A : Type} [DecidableEq A] (a : A) : List A → List A
  | [] => []
  | x :: t => if x = a then setRemove a t else x :: setRemove a t

/-- The contract state (`MultiSigContract`). -/
structure MultiSigContract where
  members : List MultisigMember
  num_confirmations : Nat
  request_nonce : Nat
  requests : List (Nat × MultiSigRequestWithSigner)
  confirmations : List (Nat × List String)
  num_requests_pk : List (String × Nat)
  active_requests_limit : Nat
deriving DecidableEq, Repr

/-- The caller identity a call resolves to (`current_member`, identity part):
the signer key when the predecessor is the contract itself, else the
predecessor account. -/
def callerOf (ctx : Ctx) : MultisigMember :=
  if ctx.current_account_id = ctx.predecessor_account_id then
    .AccessKey ctx.signer_account_pk
  else
    .Account ctx.predecessor_account_id

/-- `MultiSigContract::current_member`: the resolved caller identity, if it is
a member. -/
def current_member (s : MultiSigContract) (ctx : Ctx) : Option MultisigMember :=
  let member := callerOf ctx
  if member ∈ s.members then some member else none

/-- `MultiSigContract::add_member`: insert the member and, for a key member,
authorize its key for the multisig methods on the contract's own account. -/
def add_member (ctx : Ctx) (s : MultiSigContract) (p : Promise) (member : MultisigMember) :
    MultiSigContract × Promise :=
  let s' := { s with members := setInsert member s.members }
  match member with
  | .AccessKey pk =>
      (s', p.push (.add_access_key pk DEFAULT_ALLOWANCE ctx.current_account_id
        MULTISIG_METHOD_NAMES))
  | .Account _ => (s', p)

/-- Remove the entries for each of the given request ids from both the request
map and the confirmation map (the loop body of `delete_member`). -/
def removeIds (ids : List Nat) (s : MultiSigContract) : MultiSigContract :=
  ids.foldl
    (fun s id =>
      { s with confirmations := aremove id s.confirmations,
               requests := aremove id s.requests })
    s

/-- `MultiSigContract::delete_member`: fails when removal would drop the member
count below the quorum; otherwise purges the member's outstanding requests,
its rate-limit entry and the member itself, and revokes a key member's key. -/
def delete_member (s : MultiSigContract) (p : Promise) (member : MultisigMember) :
    Except String (MultiSigContract × Promise) :=
  if s.members.length - 1 ≥ s.num_confirmations then
    let ids := s.requests.filterMap
      (fun kr => if kr.2.member = member then some kr.1 else none)
    let s₁ := removeIds ids s
    let s₂ := { s₁ with num_requests_pk := aremove (memberKey member) s₁.num_requests_pk }
    let s₃ := { s₂ with members := setRemove member s₂.members }
    match member with
    | .AccessKey pk => .ok (s₃, p.push (.delete_key pk))
    | .Account _ => .ok (s₃, p)
  else
    .error "Removing given member will make total number of members below number of confirmations"

/-- `MultiSigContract::new`: requires the member list to be at least as long as
the number of confirmations, then adds every listed member. -/
def new (ctx : Ctx) (mems : List MultisigMember) (num_confirmations : Nat) :
    Except String (MultiSigContract × Promise) :=
  if mems.length ≥ num_confirmations then
    let init : MultiSigContract :=
      ⟨[], num_confirmations, 0, [], [], [], 12⟩
    .ok (mems.foldl (fun sp m => add_member ctx sp.1 sp.2 m)
      (init, Promise.new ctx.current_account_id))
  else
    .error "Members list must be equal or larger than number of confirmations"

/-- `MultiSigContract::get_members`. -/
def get_members (s : MultiSigContract) : List MultisigMember := s.members

/-- `MultiSigContract::get_num_requests_per_member`. -/
def get_num_requests_per_member (s : MultiSigContract) (member : MultisigMember) : Nat :=
  (alookup (memberKey member) s.num_requests_pk).getD 0

/-- `MultiSigContract::get_request`. -/
def get_request (s : MultiSigContract) (request_id : Nat) : Except String MultiSigRequest :=
  match alookup request_id s.requests with
  | some r => .ok r.request
  | none => .error "No such request"

/-- `MultiSigContract::get_confirmations`. -/
def get_confirmations (s : MultiSigContract) (request_id : Nat) : Except String (List String) :=
  match alookup request_id s.confirmations with
  | some c => .ok c
  | none => .error "No such request"

/-- `MultiSigContract::get_num_confirmations`. -/
def get_num_confirmations (s : MultiSigContract) : Nat := s.num_confirmations

/-- `MultiSigContract::get_request_nonce`. -/
def get_request_nonce (s : MultiSigContract) : Nat := s.request_nonce

/-- `MultiSigContract::list_request_ids`. -/
def list_request_ids (s : MultiSigContract) : List Nat := s.requests.map Prod.fst

/-- `MultiSigContract::add_request`: membership check, rate-limit check and
increment, then storage of the request with an empty confirmation set under
the next nonce. -/
def add_request (s : MultiSigContract) (ctx : Ctx) (request : MultiSigRequest) :
    Except String (MultiSigContract × Nat) :=
  match current_member s ctx with
  | none =>
      .error "Predecessor must be a member or transaction signed with key of given account"
  | some member =>
      let num_requests := (alookup (memberKey member) s.num_requests_pk).getD 0 + 1
      if num_requests ≤ s.active_requests_limit then
        let s₁ := { s with
          num_requests_pk :=
            ainsert (memberKey member) num_requests s.num_requests_pk }
        let request_added : MultiSigRequestWithSigner :=
          ⟨request, member, ctx.block_timestamp⟩
        let s₂ := { s₁ with
          requests := ainsert s₁.request_nonce request_added s₁.requests,
          confirmations := ainsert s₁.request_nonce [] s₁.confirmations }
        .ok ({ s₂ with request_nonce := s₂.request_nonce + 1 }, s₂.request_nonce)
      else
        .error "Account has too many active requests. Confirm or delete some."

/-- `MultiSigContract::remove_request`: drop the confirmation set and the
stored request, and decrement the original submitter's rate-limit count
(clamped at zero). -/
def remove_request (s : MultiSigContract) (request_id : Nat) :
    Except String (MultiSigContract × MultiSigRequest) :=
  let s₁ := { s with confirmations := aremove request_id s.confirmations }
  match alookup request_id s₁.requests with
  | none => .error "Failed to remove existing element"
  | some request_with_signer =>
      let s₂ := { s₁ with requests := aremove request_id s₁.requests }
      let key := memberKey request_with_signer.member
      let num_requests := (alookup key s₂.num_requests_pk).getD 0
      let num_requests := if num_requests > 0 then num_requests - 1 else num_requests
      .ok ({ s₂ with num_requests_pk := ainsert key num_requests s₂.num_requests_pk },
        request_with_signer.request)

/-- `MultiSigContract::assert_valid_request`: caller must be a member, the
request must exist, and its confirmation set must exist. -/
def assert_valid_request (s : MultiSigContract) (ctx : Ctx) (request_id : Nat) :
    Except String Unit :=
  if (current_member s ctx).isNone then
    .error "Caller (predecessor or signer) is not a member of this multisig"
  else if (alookup request_id s.requests).isNone then
    .error "No such request: either wrong number or already confirmed"
  else if (alookup request_id s.confirmations).isNone then
    .error "Internal error: confirmations mismatch requests"
  else
    .ok ()

/-- `MultiSigContract::assert_self_request`. -/
def assert_self_request (ctx : Ctx) (receiver_id : String) : Except String Unit :=
  if receiver_id = ctx.current_account_id then .ok ()
  else .error "This method only works when receiver_id is equal to current_account_id"

/-- `MultiSigContract::assert_one_action_only`. -/
def assert_one_action_only (ctx : Ctx) (receiver_id : String) (num_actions : Nat) :
    Except String Unit := do
  let _ ← assert_self_request ctx receiver_id
  if num_actions = 1 then .ok ()
  else .error "This method should be a separate request"

/-- The loop body of `MultiSigContract::execute_request`: fold the actions into
the promise chain, with the configuration actions short-circuiting to
`Value(true)` after `assert_one_action_only`. -/
def execute_actions (ctx : Ctx) (receiver_id : String) (num_actions : Nat) :
    List MultiSigRequestAction → MultiSigContract → Promise →
    Except String (MultiSigContract × PromiseOrValue)
  | [], s, p => .ok (s, .promise p)
  | action :: rest, s, p =>
    match action with
    | .Transfer amount =>
        execute_actions ctx receiver_id num_actions rest s (p.push (.transfer amount))
    | .CreateAccount =>
        execute_actions ctx receiver_id num_actions rest s (p.push .create_account)
    | .DeployContract code =>
        execute_actions ctx receiver_id num_actions rest s (p.push (.deploy_contract code))
    | .AddMember member => do
        let _ ← assert_self_request ctx receiver_id
        let sp := add_member ctx s p member
        execute_actions ctx receiver_id num_actions rest sp.1 sp.2
    | .DeleteMember member => do
        let _ ← assert_self_request ctx receiver_id
        let sp ← delete_member s p member
        execute_actions ctx receiver_id num_actions rest sp.1 sp.2
    | .AddKey pk perm => do
        let _ ← assert_self_request ctx receiver_id
        match perm with
        | some permission =>
            execute_actions ctx receiver_id num_actions rest s
              (p.push (.add_access_key pk (permission.allowance.getD DEFAULT_ALLOWANCE)
                permission.receiver_id (String.intercalate "," permission.method_names)))
        | none =>
            execute_actions ctx receiver_id num_actions rest s
              (p.push (.add_full_access_key pk))
    | .FunctionCall method_name args deposit gas =>
        execute_actions ctx receiver_id num_actions rest s
          (p.push (.function_call method_name args deposit gas))
    | .SetNumConfirmations n => do
        let _ ← assert_one_action_only ctx receiver_id num_actions
        .ok ({ s with num_confirmations := n }, .value true)
    | .SetActiveRequestsLimit n => do
        let _ ← assert_one_action_only ctx receiver_id num_actions
        .ok ({ s with active_requests_limit := n }, .value true)

/-- `MultiSigContract::execute_request`. -/
def execute_request (s : MultiSigContract) (ctx : Ctx) (request : MultiSigRequest) :
    Except String (MultiSigContract × PromiseOrValue) :=
  execute_actions ctx request.receiver_id request.actions.length request.actions s
    (Promise.new request.receiver_id)

/-- `MultiSigContract::confirm`. -/
def confirm (s : MultiSigContract) (ctx : Ctx) (request_id : Nat) :
    Except String (MultiSigContract × PromiseOrValue) := do
  let _ ← assert_valid_request s ctx request_id
  match current_member s ctx with
  | none => .error "Must be validated above"
  | some member =>
    match alookup request_id s.confirmations with
    | none => .error "called `Option::unwrap()` on a `None` value"
    | some confirmations =>
      if memberKey member ∈ confirmations then
        .error "Already confirmed this request with this key"
      else if confirmations.length + 1 ≥ s.num_confirmations then do
        let sr ← remove_request s request_id
        execute_request sr.1 ctx sr.2
      else
        .ok ({ s with
          confirmations :=
            ainsert request_id (confirmations ++ [memberKey member]) s.confirmations },
          .value true)

/-- `MultiSigContract::add_request_and_confirm`. -/
def add_request_and_confirm (s : MultiSigContract) (ctx : Ctx) (request : MultiSigRequest) :
    Except String (MultiSigContract × Nat) := do
  let si ← add_request s ctx request
  let sv ← confirm si.1 ctx si.2
  .ok (sv.1, si.2)

/-- `MultiSigContract::delete_request`: validity checks, the cooldown check,
then removal. -/
def delete_request (s : MultiSigContract) (ctx : Ctx) (request_id : Nat) :
    Except String MultiSigContract := do
  let _ ← assert_valid_request s ctx request_id
  match alookup request_id s.requests with
  | none => .error "No such request"
  | some request_with_signer =>
    if ctx.block_timestamp > request_with_signer.added_timestamp + REQUEST_COOLDOWN then do
      let sr ← remove_request s request_id
      .ok sr.1
    else
      .error "Request cannot be deleted immediately after creation."

/-- One externally invocable mutating call. -/
inductive Op where
  | addRequest (ctx : Ctx) (request : MultiSigRequest)
  | addRequestAndConfirm (ctx : Ctx) (request : MultiSigRequest)
  | confirmOp (ctx : Ctx) (request_id : Nat)
  | deleteRequest (ctx : Ctx) (request_id : Nat)

/-- The state transition of one call (the state part of its result). -/
def step (s : MultiSigContract) : Op → Except String MultiSigContract
  | .addRequest ctx request => (add_request s ctx request).map Prod.fst
  | .addRequestAndConfirm ctx request => (add_request_and_confirm s ctx request).map Prod.fst
  | .confirmOp ctx request_id => (confirm s ctx request_id).map Prod.fst
  | .deleteRequest ctx request_id => delete_request s ctx request_id

/-- States reachable from construction through the contract's operations. -/
inductive Reachable : MultiSigContract → Prop
  | init (ctx : Ctx) (mems : List MultisigMember) (k : Nat) (s : MultiSigContract)
      (p : Promise) : new ctx mems k = .ok (s, p) → Reachable s
  | next (s : MultiSigContract) (op : Op) (s' : MultiSigContract) :
      Reachable s → step s op = .ok s' → Reachable s'

/-!
Basic laws of the container embeddings.
-/

theorem alookup_ainsert_self {V : Type} (k : Nat) (v : V) (l : List (Nat × V)) :
    alookup k (ainsert k v l) = some v := by
  induction l with
  | nil => simp [ainsert, alookup]
  | cons kv rest ih =>
      by_cases h : kv.1 = k
      · simp [ainsert, h, alookup]
      · cases kv with
        | mk k' v' =>
            simp only at h
            simp [ainsert, h, alookup, ih]

theorem alookup_ainsert_ne {V : Type} (k k' : Nat) (v : V) (l : List (Nat × V))
    (h : k' ≠ k) : alookup k (ainsert k' v l) = alookup k l := by
  induction l with
  | nil => simp [ainsert, alookup, h]
  | cons kv rest ih =>
      cases kv with
      | mk k₀ v₀ =>
          by_cases h0 : k₀ = k'
          · simp [ainsert, h0, alookup, h]
          · simp only [ainsert, if_neg h0]
            by_cases h1 : k₀ = k
            · simp [alookup, h1]
            · simp [alookup, h1, ih]

theorem alookup_aremove_self {V : Type} (k : Nat) (l : List (Nat × V)) :
    alookup k (aremove k l) = none := by
  induction l with
  | nil => rfl
  | cons kv rest ih =>
      cases kv with
      | mk k₀ v₀ =>
          by_cases h0 : k₀ = k
          · simp [aremove, h0, ih]
          · simp [aremove, h0, alookup, ih]

theorem alookup_aremove_ne {V : Type} (k k' : Nat) (l : List (Nat × V))
    (h : k' ≠ k) : alookup k (aremove k' l) = alookup k l := by
  induction l with
  | nil => rfl
  | cons kv rest ih =>
      cases kv with
      | mk k₀ v₀ =>
          by_cases h0 : k₀ = k'
          · subst h0
            simp [aremove, alookup, h, ih]
          · by_cases h1 : k₀ = k
            · subst h1
              simp [aremove, h0, alookup]
            · simp [aremove, h0, alookup, h1, ih]

theorem salookup_ainsert_self {V : Type} (k : String) (v : V) (l : List (String × V)) :
    alookup k (ainsert k v l) = some v := by
  induction l with
  | nil => simp [ainsert, alookup]
  | cons kv rest ih =>
      by_cases h : kv.1 = k
      · simp [ainsert, h, alookup]
      · cases kv with
        | mk k' v' =>
            simp only at h
            simp [ainsert, h, alookup, ih]

theorem salookup_ainsert_ne {V : Type} (k k' : String) (v : V) (l : List (String × V))
    (h : k' ≠ k) : alookup k (ainsert k' v l) = alookup k l := by
  induction l with
  | nil => simp [ainsert, alookup, h]
  | cons kv rest ih =>
      cases kv with
      | mk k₀ v₀ =>
          by_cases h0 : k₀ = k'
          · simp [ainsert, h0, alookup, h]
          · simp only [ainsert, if_neg h0]
            by_cases h1 : k₀ = k
            · simp [alookup, h1]
            · simp [alookup, h1, ih]

theorem mem_of_mem_setRemove {A : Type} [DecidableEq A] (a b : A) (l : List A)
    (h : b ∈ setRemove a l) : b ∈ l := by
  induction l with
  | nil => exact absurd h (by simp [setRemove])
  | cons x t ih =>
      by_cases hxa : x = a
      · simp only [setRemove, if_pos hxa] at h
        exact List.mem_cons_of_mem _ (ih h)
      · simp only [setRemove, if_neg hxa, List.mem_cons] at h
        rcases h with rfl | h
        · exact List.mem_cons_self _ _
        · exact List.mem_cons_of_mem _ (ih h)

theorem setRemove_nodup {A : Type} [DecidableEq A] (a : A) (l : List A) (hn : l.Nodup) :
    (setRemove a l).Nodup := by
  induction l with
  | nil => exact hn
  | cons x t ih =>
      simp only [List.nodup_cons] at hn
      by_cases hxa : x = a
      · simp only [setRemove, if_pos hxa]
        exact ih hn.2
      · simp only [setRemove, if_neg hxa, List.nodup_cons]
        exact ⟨fun hm => hn.1 (mem_of_mem_setRemove a x t hm), ih hn.2⟩

theorem setRemove_not_mem {A : Type} [DecidableEq A] (a : A) (l : List A) (h : a ∉ l) :
    setRemove a l = l := by
  induction l with
  | nil => rfl
  | cons x t ih =>
      simp only [List.mem_cons, not_or] at h
      have hxa : ¬ x = a := fun e => h.1 e.symm
      simp [setRemove, hxa, ih h.2]

theorem setRemove_length_mem {A : Type} [DecidableEq A] (a : A) (l : List A)
    (hn : l.Nodup) (h : a ∈ l) : (setRemove a l).length = l.length - 1 := by
  induction l with
  | nil => cases h
  | cons x t ih =>
      simp only [List.nodup_cons] at hn
      by_cases hxa : x = a
      · subst hxa
        simp [setRemove, setRemove_not_mem x t hn.1]
      · have hat : a ∈ t := by
          rcases List.mem_cons.mp h with h1 | h2
          · exact absurd h1.symm hxa
          · exact h2
        have h1 : 1 ≤ t.length := List.length_pos.mpr (List.ne_nil_of_mem hat)
        simp [setRemove, hxa, ih hn.2 hat]
        omega

theorem setInsert_nodup {A : Type} [DecidableEq A] (a : A) (l : List A) (hn : l.Nodup) :
    (setInsert a l).Nodup := by
  unfold setInsert
  split
  · exact hn
  · next h => simpa [List.nodup_append] using ⟨hn, h⟩

theorem setInsert_length_ge {A : Type} [DecidableEq A] (a : A) (l : List A) :
    l.length ≤ (setInsert a l).length := by
  unfold setInsert
  split <;> simp

/-- The canonical string form distinguishes members: it is injective, so
string-keyed confirmation sets and rate-limit counters identify members
exactly. -/
theorem memberKey_inj (a b : MultisigMember) (h : memberKey a = memberKey b) : a = b := by
  cases a with
  | AccessKey pa =>
      cases b with
      | AccessKey pb =>
          simp only [memberKey] at h
          have hd := congrArg String.data h
          simp only [String.data_append] at hd
          have h1 := List.append_cancel_right hd
          have h2 := List.append_cancel_left h1
          exact congrArg MultisigMember.AccessKey (String.ext h2)
      | Account ab =>
          simp only [memberKey] at h
          have hd := congrArg String.data h
          simp only [String.data_append] at hd
          simp [List.cons_append] at hd
  | Account aa =>
      cases b with
      | AccessKey pb =>
          simp only [memberKey] at h
          have hd := congrArg String.data h
          simp only [String.data_append] at hd
          simp [List.cons_append] at hd
      | Account ab =>
          simp only [memberKey] at h
          have hd := congrArg String.data h
          simp only [String.data_append] at hd
          have h1 := List.append_cancel_right hd
          have h2 := List.append_cancel_left h1
          exact congrArg MultisigMember.Account (String.ext h2)

/-!
Shape lemmas for the individual operations.
-/

theorem add_member_state (ctx : Ctx) (s : MultiSigContract) (p : Promise)
    (m : MultisigMember) :
    (add_member ctx s p m).1 = { s with members := setInsert m s.members } := by
  cases m <;> rfl

theorem removeIds_members (ids : List Nat) (s : MultiSigContract) :
    (removeIds ids s).members = s.members := by
  induction ids generalizing s with
  | nil => rfl
  | cons i t ih => simp [removeIds, List.foldl_cons] at ih ⊢; exact ih _

theorem removeIds_num_confirmations (ids : List Nat) (s : MultiSigContract) :
    (removeIds ids s).num_confirmations = s.num_confirmations := by
  induction ids generalizing s with
  | nil => rfl
  | cons i t ih => simp [removeIds, List.foldl_cons] at ih ⊢; exact ih _

theorem removeIds_request_nonce (ids : List Nat) (s : MultiSigContract) :
    (removeIds ids s).request_nonce = s.request_nonce := by
  induction ids generalizing s with
  | nil => rfl
  | cons i t ih => simp [removeIds, List.foldl_cons] at ih ⊢; exact ih _

theorem removeIds_num_requests_pk (ids : List Nat) (s : MultiSigContract) :
    (removeIds ids s).num_requests_pk = s.num_requests_pk := by
  induction ids generalizing s with
  | nil => rfl
  | cons i t ih => simp [removeIds, List.foldl_cons] at ih ⊢; exact ih _

theorem removeIds_active_requests_limit (ids : List Nat) (s : MultiSigContract) :
    (removeIds ids s).active_requests_limit = s.active_requests_limit := by
  induction ids generalizing s with
  | nil => rfl
  | cons i t ih => simp [removeIds, List.foldl_cons] at ih ⊢; exact ih _

theorem removeIds_requests_lookup (ids : List Nat) (s : MultiSigContract) (id : Nat) :
    alookup id (removeIds ids s).requests =
      if id ∈ ids then none else alookup id s.requests := by
  induction ids generalizing s with
  | nil => simp [removeIds]
  | cons i t ih =>
      simp only [removeIds, List.foldl_cons] at ih ⊢
      rw [ih]
      by_cases hit : id ∈ t
      · simp [hit]
      · by_cases hii : id = i
        · subst hii
          simp [hit, alookup_aremove_self]
        · simp [hit, hii, alookup_aremove_ne id i _ (fun e => hii e.symm)]

theorem removeIds_confirmations_lookup (ids : List Nat) (s : MultiSigContract) (id : Nat) :
    alookup id (removeIds ids s).confirmations =
      if id ∈ ids then none else alookup id s.confirmations := by
  induction ids generalizing s with
  | nil => simp [removeIds]
  | cons i t ih =>
      simp only [removeIds, List.foldl_cons] at ih ⊢
      rw [ih]
      by_cases hit : id ∈ t
      · simp [hit]
      · by_cases hii : id = i
        · subst hii
          simp [hit, alookup_aremove_self]
        · simp [hit, hii, alookup_aremove_ne id i _ (fun e => hii e.symm)]

theorem delete_member_spec (s : MultiSigContract) (p : Promise) (m : MultisigMember)
    (s' : MultiSigContract) (p' : Promise)
    (h : delete_member s p m = .ok (s', p')) :
    s.members.length - 1 ≥ s.num_confirmations ∧
    s'.members = setRemove m s.members ∧
    s'.num_confirmations = s.num_confirmations ∧
    s'.request_nonce = s.request_nonce ∧
    s'.active_requests_limit = s.active_requests_limit ∧
    (∀ id, (alookup id s'.requests = alookup id s.requests ∧
            alookup id s'.confirmations = alookup id s.confirmations) ∨
           (alookup id s'.requests = none ∧ alookup id s'.confirmations = none)) := by
  unfold delete_member at h
  by_cases hg : s.members.length - 1 ≥ s.num_confirmations
  · rw [if_pos hg] at h
    dsimp only at h
    have hs' : s'.members = setRemove m (removeIds (s.requests.filterMap
          (fun kr => if kr.2.member = m then some kr.1 else none)) s).members ∧
        s'.num_confirmations = (removeIds (s.requests.filterMap
          (fun kr => if kr.2.member = m then some kr.1 else none)) s).num_confirmations ∧
        s'.request_nonce = (removeIds (s.requests.filterMap
          (fun kr => if kr.2.member = m then some kr.1 else none)) s).request_nonce ∧
        s'.active_requests_limit = (removeIds (s.requests.filterMap
          (fun kr => if kr.2.member = m then some kr.1 else none)) s).active_requests_limit ∧
        s'.requests = (removeIds (s.requests.filterMap
          (fun kr => if kr.2.member = m then some kr.1 else none)) s).requests ∧
        s'.confirmations = (removeIds (s.requests.filterMap
          (fun kr => if kr.2.member = m then some kr.1 else none)) s).confirmations := by
      cases m with
      | AccessKey pk =>
          simp only [Except.ok.injEq, Prod.mk.injEq] at h
          rw [← h.1]
          exact ⟨rfl, rfl, rfl, rfl, rfl, rfl⟩
      | Account aid =>
          simp only [Except.ok.injEq, Prod.mk.injEq] at h
          rw [← h.1]
          exact ⟨rfl, rfl, rfl, rfl, rfl, rfl⟩
    obtain ⟨h1, h2, h3, h4, h5, h6⟩ := hs'
    refine ⟨hg, ?_, ?_, ?_, ?_, ?_⟩
    · rw [h1, removeIds_members]
    · rw [h2, removeIds_num_confirmations]
    · rw [h3, removeIds_request_nonce]
    · rw [h4, removeIds_active_requests_limit]
    · intro id
      rw [h5, h6, removeIds_requests_lookup, removeIds_confirmations_lookup]
      by_cases hmem : id ∈ s.requests.filterMap
          (fun kr => if kr.2.member = m then some kr.1 else none)
      · right
        simp [hmem]
      · left
        simp [hmem]
  · rw [if_neg hg] at h
    cases h

theorem remove_request_spec (s : MultiSigContract) (request_id : Nat)
    (s' : MultiSigContract) (req : MultiSigRequest)
    (h : remove_request s request_id = .ok (s', req)) :
    ∃ rws, alookup request_id s.requests = some rws ∧ req = rws.request ∧
      s' = { s with
        confirmations := aremove request_id s.confirmations,
        requests := aremove request_id s.requests,
        num_requests_pk :=
          ainsert (memberKey rws.member)
            ((alookup (memberKey rws.member) s.num_requests_pk).getD 0 - 1)
            s.num_requests_pk } := by
  unfold remove_request at h
  dsimp only at h
  cases hr : alookup request_id s.requests with
  | none =>
      rw [hr] at h
      cases h
  | some rws =>
      rw [hr] at h
      dsimp only at h
      simp only [Except.ok.injEq, Prod.mk.injEq] at h
      refine ⟨rws, rfl, h.2.symm, ?_⟩
      rw [← h.1]
      have hclamp :
          (if (alookup (memberKey rws.member) s.num_requests_pk).getD 0 > 0 then
            (alookup (memberKey rws.member) s.num_requests_pk).getD 0 - 1
          else (alookup (memberKey rws.member) s.num_requests_pk).getD 0) =
          (alookup (memberKey rws.member) s.num_requests_pk).getD 0 - 1 := by
        split <;> omega
      simp [hclamp]

theorem add_request_spec (s : MultiSigContract) (ctx : Ctx) (req : MultiSigRequest)
    (s' : MultiSigContract) (id : Nat)
    (h : add_request s ctx req = .ok (s', id)) :
    ∃ m, current_member s ctx = some m ∧
      (alookup (memberKey m) s.num_requests_pk).getD 0 + 1 ≤ s.active_requests_limit ∧
      id = s.request_nonce ∧
      s' = { s with
        num_requests_pk :=
          ainsert (memberKey m) ((alookup (memberKey m) s.num_requests_pk).getD 0 + 1)
            s.num_requests_pk,
        requests := ainsert s.request_nonce ⟨req, m, ctx.block_timestamp⟩ s.requests,
        confirmations := ainsert s.request_nonce [] s.confirmations,
        request_nonce := s.request_nonce + 1 } := by
  unfold add_request at h
  cases hm : current_member s ctx with
  | none =>
      rw [hm] at h
      cases h
  | some m =>
      rw [hm] at h
      dsimp only at h
      by_cases hl : (alookup (memberKey m) s.num_requests_pk).getD 0 + 1 ≤
          s.active_requests_limit
      · rw [if_pos hl] at h
        simp only [Except.ok.injEq, Prod.mk.injEq] at h
        exact ⟨m, rfl, hl, h.2.symm, h.1.symm⟩
      · rw [if_neg hl] at h
        cases h

theorem new_fold_state (ctx : Ctx) (mems : List MultisigMember) (s0 : MultiSigContract)
    (p0 : Promise) :
    (mems.foldl (fun sp m => add_member ctx sp.1 sp.2 m) (s0, p0)).1 =
      { s0 with members := mems.foldl (fun acc m => setInsert m acc) s0.members } := by
  induction mems generalizing s0 p0 with
  | nil => simp
  | cons m t ih =>
      simp only [List.foldl_cons]
      cases hfm : add_member ctx s0 p0 m with
      | mk s1 p1 =>
          have hs1 : s1 = { s0 with members := setInsert m s0.members } := by
            have := add_member_state ctx s0 p0 m
            rw [hfm] at this
            exact this
          rw [ih s1 p1, hs1]

theorem foldl_setInsert_of_nodup {A : Type} [DecidableEq A] (mems acc : List A)
    (h : (acc ++ mems).Nodup) :
    mems.foldl (fun acc m => setInsert m acc) acc = acc ++ mems := by
  induction mems generalizing acc with
  | nil => simp
  | cons m t ih =>
      have hnotin : m ∉ acc := by
        rcases List.nodup_append.mp h with ⟨_, _, hdisj⟩
        intro hmem
        exact hdisj hmem (List.mem_cons_self m t)
      have hstep : setInsert m acc = acc ++ [m] := by
        unfold setInsert
        rw [if_neg hnotin]
      have hrearr : (acc ++ [m]) ++ t = acc ++ m :: t := by
        simp
      simp only [List.foldl_cons, hstep]
      rw [ih (acc ++ [m]) (by rw [hrearr]; exact h), hrearr]

theorem new_spec (ctx : Ctx) (mems : List MultisigMember) (k : Nat)
    (s : MultiSigContract) (p : Promise) (h : new ctx mems k = .ok (s, p)) :
    mems.length ≥ k ∧
    s.members = mems.foldl (fun acc m => setInsert m acc) [] ∧
    s.num_confirmations = k ∧ s.request_nonce = 0 ∧ s.requests = [] ∧
    s.confirmations = [] ∧ s.num_requests_pk = [] ∧ s.active_requests_limit = 12 := by
  unfold new at h
  by_cases hg : mems.length ≥ k
  · rw [if_pos hg] at h
    dsimp only at h
    simp only [Except.ok.injEq] at h
    have hs := congrArg Prod.fst h
    have hstate := new_fold_state ctx mems ⟨[], k, 0, [], [], [], 12⟩
      (Promise.new ctx.current_account_id)
    rw [hstate] at hs
    dsimp only at hs
    rw [← hs]
    exact ⟨hg, rfl, rfl, rfl, rfl, rfl, rfl, rfl⟩
  · rw [if_neg hg] at h
    cases h

theorem remove_request_eq (s : MultiSigContract) (request_id : Nat)
    (rws : MultiSigRequestWithSigner) (hr : alookup request_id s.requests = some rws) :
    remove_request s request_id = .ok
      ({ s with
          confirmations := aremove request_id s.confirmations,
          requests := aremove request_id s.requests,
          num_requests_pk := ainsert (memberKey rws.member)
            ((alookup (memberKey rws.member) s.num_requests_pk).getD 0 - 1)
            s.num_requests_pk }, rws.request) := by
  unfold remove_request
  dsimp only
  rw [hr]
  dsimp only
  have hclamp :
      (if (alookup (memberKey rws.member) s.num_requests_pk).getD 0 > 0 then
        (alookup (memberKey rws.member) s.num_requests_pk).getD 0 - 1
      else (alookup (memberKey rws.member) s.num_requests_pk).getD 0) =
      (alookup (memberKey rws.member) s.num_requests_pk).getD 0 - 1 := by
    split <;> omega
  rw [hclamp]

theorem assert_valid_request_ok (s : MultiSigContract) (ctx : Ctx) (request_id : Nat)
    (m : MultisigMember) (hm : current_member s ctx = some m)
    (hr : (alookup request_id s.requests).isSome = true)
    (hc : (alookup request_id s.confirmations).isSome = true) :
    assert_valid_request s ctx request_id = .ok () := by
  unfold assert_valid_request
  rw [hm]
  have hr' : ¬ alookup request_id s.requests = none := by
    intro e
    rw [e] at hr
    cases hr
  have hc' : ¬ alookup request_id s.confirmations = none := by
    intro e
    rw [e] at hc
    cases hc
  simp [hr', hc']

theorem confirm_eq (s : MultiSigContract) (ctx : Ctx) (request_id : Nat)
    (m : MultisigMember) (C : List String)
    (hm : current_member s ctx = some m)
    (hr : (alookup request_id s.requests).isSome = true)
    (hc : alookup request_id s.confirmations = some C) :
    confirm s ctx request_id =
      if memberKey m ∈ C then .error "Already confirmed this request with this key"
      else if C.length + 1 ≥ s.num_confirmations then
        (remove_request s request_id).bind (fun sr => execute_request sr.1 ctx sr.2)
      else .ok ({ s with
          confirmations :=
            ainsert request_id (C ++ [memberKey m]) s.confirmations }, .value true) := by
  unfold confirm
  rw [assert_valid_request_ok s ctx request_id m hm hr (by rw [hc]; rfl)]
  rw [hm, hc]
  rfl

theorem delete_request_eq (s : MultiSigContract) (ctx : Ctx) (request_id : Nat)
    (m : MultisigMember) (rws : MultiSigRequestWithSigner)
    (hm : current_member s ctx = some m)
    (hr : alookup request_id s.requests = some rws)
    (hc : (alookup request_id s.confirmations).isSome = true) :
    delete_request s ctx request_id =
      if ctx.block_timestamp > rws.added_timestamp + REQUEST_COOLDOWN then
        (remove_request s request_id).bind (fun sr => .ok sr.1)
      else .error "Request cannot be deleted immediately after creation." := by
  unfold delete_request
  rw [assert_valid_request_ok s ctx request_id m hm (by rw [hr]; rfl) hc]
  rw [hr]
  rfl

theorem ebind_ok {α β : Type} (a : α) (f : α → Except String β) :
    (Except.ok a : Except String α) >>= f = f a := rfl

theorem ebind_err {α β : Type} (e : String) (f : α → Except String β) :
    (Except.error e : Except String α) >>= f = Except.error e := rfl

/-- Relation between a state and the state after running the dispatch loop:
the nonce is untouched, and each request id either keeps both of its map
entries unchanged or loses both (only `DeleteMember` removes entries, and it
removes them pairwise). -/
def ShrinkPair (s s' : MultiSigContract) : Prop :=
  s'.request_nonce = s.request_nonce ∧
  ∀ id, (alookup id s'.requests = alookup id s.requests ∧
         alookup id s'.confirmations = alookup id s.confirmations) ∨
        (alookup id s'.requests = none ∧ alookup id s'.confirmations = none)

theorem shrinkPair_refl (s : MultiSigContract) : ShrinkPair s s :=
  ⟨rfl, fun _ => Or.inl ⟨rfl, rfl⟩⟩

theorem shrinkPair_of_maps_eq (s s' : MultiSigContract)
    (hn : s'.request_nonce = s.request_nonce)
    (hr : s'.requests = s.requests) (hc : s'.confirmations = s.confirmations) :
    ShrinkPair s s' :=
  ⟨hn, fun _ => Or.inl ⟨by rw [hr], by rw [hc]⟩⟩

theorem shrinkPair_trans (a b c : MultiSigContract)
    (h1 : ShrinkPair a b) (h2 : ShrinkPair b c) : ShrinkPair a c := by
  refine ⟨h2.1.trans h1.1, fun id => ?_⟩
  rcases h2.2 id with ⟨e1, e2⟩ | ⟨e1, e2⟩
  · rcases h1.2 id with ⟨f1, f2⟩ | ⟨f1, f2⟩
    · exact Or.inl ⟨e1.trans f1, e2.trans f2⟩
    · exact Or.inr ⟨e1.trans f1, e2.trans f2⟩
  · exact Or.inr ⟨e1, e2⟩

theorem exec_shrink (ctx : Ctx) (r : String) (n : Nat)
    (l : List MultiSigRequestAction) :
    ∀ (s : MultiSigContract) (p : Promise) (s' : MultiSigContract) (v : PromiseOrValue),
    execute_actions ctx r n l s p = .ok (s', v) → ShrinkPair s s' := by
  induction l with
  | nil =>
      intro s p s' v h
      simp only [execute_actions, Except.ok.injEq, Prod.mk.injEq] at h
      rw [← h.1]
      exact shrinkPair_refl s
  | cons action rest ih =>
      intro s p s' v h
      cases action with
      | Transfer amount =>
          simp only [execute_actions] at h
          exact ih _ _ _ _ h
      | CreateAccount =>
          simp only [execute_actions] at h
          exact ih _ _ _ _ h
      | DeployContract code =>
          simp only [execute_actions] at h
          exact ih _ _ _ _ h
      | FunctionCall name args dep gas =>
          simp only [execute_actions] at h
          exact ih _ _ _ _ h
      | AddMember m =>
          simp only [execute_actions] at h
          cases hsr : assert_self_request ctx r with
          | error e =>
              rw [hsr] at h
              cases h
          | ok u =>
              rw [hsr, ebind_ok] at h
              have hstep : ShrinkPair s (add_member ctx s p m).1 := by
                rw [add_member_state]
                exact shrinkPair_of_maps_eq _ _ rfl rfl rfl
              exact shrinkPair_trans _ _ _ hstep (ih _ _ _ _ h)
      | DeleteMember m =>
          simp only [execute_actions] at h
          cases hsr : assert_self_request ctx r with
          | error e =>
              rw [hsr] at h
              cases h
          | ok u =>
              rw [hsr, ebind_ok] at h
              cases hdm : delete_member s p m with
              | error e =>
                  rw [hdm] at h
                  cases h
              | ok sp =>
                  rw [hdm, ebind_ok] at h
                  have hspec := delete_member_spec s p m sp.1 sp.2 (by rw [hdm])
                  have hstep : ShrinkPair s sp.1 :=
                    ⟨hspec.2.2.2.1, hspec.2.2.2.2.2⟩
                  exact shrinkPair_trans _ _ _ hstep (ih _ _ _ _ h)
      | AddKey pk perm =>
          simp only [execute_actions] at h
          cases hsr : assert_self_request ctx r with
          | error e =>
              rw [hsr] at h
              cases h
          | ok u =>
              rw [hsr, ebind_ok] at h
              cases perm with
              | some permission =>
                  exact ih _ _ _ _ h
              | none =>
                  exact ih _ _ _ _ h
      | SetNumConfirmations m =>
          simp only [execute_actions] at h
          cases hao : assert_one_action_only ctx r n with
          | error e =>
              rw [hao] at h
              cases h
          | ok u =>
              rw [hao, ebind_ok] at h
              simp only [Except.ok.injEq, Prod.mk.injEq] at h
              rw [← h.1]
              exact shrinkPair_of_maps_eq _ _ rfl rfl rfl
      | SetActiveRequestsLimit m =>
          simp only [execute_actions] at h
          cases hao : assert_one_action_only ctx r n with
          | error e =>
              rw [hao] at h
              cases h
          | ok u =>
              rw [hao, ebind_ok] at h
              simp only [Except.ok.injEq, Prod.mk.injEq] at h
              rw [← h.1]
              exact shrinkPair_of_maps_eq _ _ rfl rfl rfl

theorem assert_one_action_only_ne_one (ctx : Ctx) (r : String) (n : Nat) (hne : n ≠ 1)
    (u : Unit) : assert_one_action_only ctx r n ≠ .ok u := by
  unfold assert_one_action_only
  cases hsr : assert_self_request ctx r with
  | error e =>
      rw [ebind_err]
      intro h
      cases h
  | ok w =>
      rw [ebind_ok, if_neg hne]
      intro h
      cases h

theorem exec_config_not_ok (ctx : Ctx) (r : String) (n : Nat)
    (l : List MultiSigRequestAction) (hne : n ≠ 1)
    (hcfg : (∃ m, MultiSigRequestAction.SetNumConfirmations m ∈ l) ∨
            (∃ m, MultiSigRequestAction.SetActiveRequestsLimit m ∈ l)) :
    ∀ (s : MultiSigContract) (p : Promise) (s' : MultiSigContract) (v : PromiseOrValue),
    execute_actions ctx r n l s p ≠ .ok (s', v) := by
  induction l with
  | nil =>
      rcases hcfg with ⟨m, hm⟩ | ⟨m, hm⟩ <;> cases hm
  | cons action rest ih =>
      intro s p s' v h
      have hrest : (action = .SetNumConfirmations (match action with
          | .SetNumConfirmations m => m | _ => 0)) ∨
          (action = .SetActiveRequestsLimit (match action with
          | .SetActiveRequestsLimit m => m | _ => 0)) ∨
          ((∃ m, MultiSigRequestAction.SetNumConfirmations m ∈ rest) ∨
           (∃ m, MultiSigRequestAction.SetActiveRequestsLimit m ∈ rest)) := by
        rcases hcfg with ⟨m, hm⟩ | ⟨m, hm⟩
        · rcases List.mem_cons.mp hm with rfl | hmem
          · exact Or.inl rfl
          · exact Or.inr (Or.inr (Or.inl ⟨m, hmem⟩))
        · rcases List.mem_cons.mp hm with rfl | hmem
          · exact Or.inr (Or.inl rfl)
          · exact Or.inr (Or.inr (Or.inr ⟨m, hmem⟩))
      cases action with
      | Transfer amount =>
          simp only [execute_actions] at h
          rcases hrest with he | he | hc
          · cases he
          · cases he
          · exact ih hc _ _ _ _ h
      | CreateAccount =>
          simp only [execute_actions] at h
          rcases hrest with he | he | hc
          · cases he
          · cases he
          · exact ih hc _ _ _ _ h
      | DeployContract code =>
          simp only [execute_actions] at h
          rcases hrest with he | he | hc
          · cases he
          · cases he
          · exact ih hc _ _ _ _ h
      | FunctionCall name args dep gas =>
          simp only [execute_actions] at h
          rcases hrest with he | he | hc
          · cases he
          · cases he
          · exact ih hc _ _ _ _ h
      | AddMember m =>
          simp only [execute_actions] at h
          cases hsr : assert_self_request ctx r with
          | error e =>
              rw [hsr] at h
              cases h
          | ok u =>
              rw [hsr, ebind_ok] at h
              rcases hrest with he | he | hc
              · cases he
              · cases he
              · exact ih hc _ _ _ _ h
      | DeleteMember m =>
          simp only [execute_actions] at h
          cases hsr : assert_self_request ctx r with
          | error e =>
              rw [hsr] at h
              cases h
          | ok u =>
              rw [hsr, ebind_ok] at h
              cases hdm : delete_member s p m with
              | error e =>
                  rw [hdm] at h
                  cases h
              | ok sp =>
                  rw [hdm, ebind_ok] at h
                  rcases hrest with he | he | hc
                  · cases he
                  · cases he
                  · exact ih hc _ _ _ _ h
      | AddKey pk perm =>
          simp only [execute_actions] at h
          cases hsr : assert_self_request ctx r with
          | error e =>
              rw [hsr] at h
              cases h
          | ok u =>
              rw [hsr, ebind_ok] at h
              cases perm with
              | some permission =>
                  rcases hrest with he | he | hc
                  · cases he
                  · cases he
                  · exact ih hc _ _ _ _ h
              | none =>
                  rcases hrest with he | he | hc
                  · cases he
                  · cases he
                  · exact ih hc _ _ _ _ h
      | SetNumConfirmations m =>
          simp only [execute_actions] at h
          cases hao : assert_one_action_only ctx r n with
          | error e =>
              rw [hao] at h
              cases h
          | ok u =>
              exact assert_one_action_only_ne_one ctx r n hne u hao
      | SetActiveRequestsLimit m =>
          simp only [execute_actions] at h
          cases hao : assert_one_action_only ctx r n with
          | error e =>
              rw [hao] at h
              cases h
          | ok u =>
              exact assert_one_action_only_ne_one ctx r n hne u hao

/-- Membership invariant: the member set is duplicate-free and at least as
large as the configured quorum size. -/
def MemberInv (s : MultiSigContract) : Prop :=
  s.members.Nodup ∧ s.num_confirmations ≤ s.members.length

theorem delete_member_memberInv (s : MultiSigContract) (p : Promise) (m : MultisigMember)
    (s' : MultiSigContract) (p' : Promise)
    (h : delete_member s p m = .ok (s', p')) (hinv : MemberInv s) : MemberInv s' := by
  obtain ⟨hg, hmem, hnc, -, -, -⟩ := delete_member_spec s p m s' p' h
  constructor
  · rw [hmem]
    exact setRemove_nodup m s.members hinv.1
  · rw [hmem, hnc]
    by_cases hin : m ∈ s.members
    · rw [setRemove_length_mem m s.members hinv.1 hin]
      exact hg
    · rw [setRemove_not_mem m s.members hin]
      exact hinv.2

theorem exec_memberInv (ctx : Ctx) (r : String) (n : Nat)
    (l : List MultiSigRequestAction) :
    ∀ (s : MultiSigContract) (p : Promise) (s' : MultiSigContract) (v : PromiseOrValue),
    execute_actions ctx r n l s p = .ok (s', v) →
    MemberInv s → l.length ≤ n →
    (∀ m, MultiSigRequestAction.SetNumConfirmations m ∈ l → m ≤ s.members.length) →
    MemberInv s' := by
  induction l with
  | nil =>
      intro s p s' v h hinv _ _
      simp only [execute_actions, Except.ok.injEq, Prod.mk.injEq] at h
      rw [← h.1]
      exact hinv
  | cons action rest ih =>
      intro s p s' v h hinv hlen hbound
      have hlen' : rest.length ≤ n := by
        simp only [List.length_cons] at hlen
        omega
      cases action with
      | Transfer amount =>
          simp only [execute_actions] at h
          exact ih _ _ _ _ h hinv hlen'
            (fun m hm => hbound m (List.mem_cons_of_mem _ hm))
      | CreateAccount =>
          simp only [execute_actions] at h
          exact ih _ _ _ _ h hinv hlen'
            (fun m hm => hbound m (List.mem_cons_of_mem _ hm))
      | DeployContract code =>
          simp only [execute_actions] at h
          exact ih _ _ _ _ h hinv hlen'
            (fun m hm => hbound m (List.mem_cons_of_mem _ hm))
      | FunctionCall name args dep gas =>
          simp only [execute_actions] at h
          exact ih _ _ _ _ h hinv hlen'
            (fun m hm => hbound m (List.mem_cons_of_mem _ hm))
      | AddMember m =>
          simp only [execute_actions] at h
          cases hsr : assert_self_request ctx r with
          | error e =>
              rw [hsr] at h
              cases h
          | ok u =>
              rw [hsr, ebind_ok] at h
              have hst := add_member_state ctx s p m
              have hinv' : MemberInv (add_member ctx s p m).1 := by
                rw [hst]
                exact ⟨setInsert_nodup m s.members hinv.1,
                  le_trans hinv.2 (setInsert_length_ge m s.members)⟩
              have hbound' : ∀ m0, MultiSigRequestAction.SetNumConfirmations m0 ∈ rest →
                  m0 ≤ (add_member ctx s p m).1.members.length := by
                intro m0 hm0
                rw [hst]
                exact le_trans (hbound m0 (List.mem_cons_of_mem _ hm0))
                  (setInsert_length_ge m s.members)
              exact ih _ _ _ _ h hinv' hlen' hbound'
      | DeleteMember m =>
          simp only [execute_actions] at h
          cases hsr : assert_self_request ctx r with
          | error e =>
              rw [hsr] at h
              cases h
          | ok u =>
              rw [hsr, ebind_ok] at h
              cases hdm : delete_member s p m with
              | error e =>
                  rw [hdm] at h
                  cases h
              | ok sp =>
                  rw [hdm, ebind_ok] at h
                  have hinv' : MemberInv sp.1 :=
                    delete_member_memberInv s p m sp.1 sp.2 (by rw [hdm]) hinv
                  by_cases hcfg : ∃ m0, MultiSigRequestAction.SetNumConfirmations m0 ∈ rest
                  · obtain ⟨m0, hm0⟩ := hcfg
                    have hne : n ≠ 1 := by
                      have : 1 ≤ rest.length := List.length_pos.mpr (List.ne_nil_of_mem hm0)
                      simp only [List.length_cons] at hlen
                      omega
                    exact absurd h (exec_config_not_ok ctx r n rest hne (Or.inl ⟨m0, hm0⟩) _ _ _ _)
                  · have hbound' : ∀ m0, MultiSigRequestAction.SetNumConfirmations m0 ∈ rest →
                        m0 ≤ sp.1.members.length := by
                      intro m0 hm0
                      exact absurd ⟨m0, hm0⟩ hcfg
                    exact ih _ _ _ _ h hinv' hlen' hbound'
      | AddKey pk perm =>
          simp only [execute_actions] at h
          cases hsr : assert_self_request ctx r with
          | error e =>
              rw [hsr] at h
              cases h
          | ok u =>
              rw [hsr, ebind_ok] at h
              cases perm with
              | some permission =>
                  exact ih _ _ _ _ h hinv hlen'
                    (fun m hm => hbound m (List.mem_cons_of_mem _ hm))
              | none =>
                  exact ih _ _ _ _ h hinv hlen'
                    (fun m hm => hbound m (List.mem_cons_of_mem _ hm))
      | SetNumConfirmations m =>
          simp only [execute_actions] at h
          cases hao : assert_one_action_only ctx r n with
          | error e =>
              rw [hao] at h
              cases h
          | ok u =>
              rw [hao, ebind_ok] at h
              simp only [Except.ok.injEq, Prod.mk.injEq] at h
              rw [← h.1]
              exact ⟨hinv.1, hbound m (List.mem_cons_self _ _)⟩
      | SetActiveRequestsLimit m =>
          simp only [execute_actions] at h
          cases hao : assert_one_action_only ctx r n with
          | error e =>
              rw [hao] at h
              cases h
          | ok u =>
              rw [hao, ebind_ok] at h
              simp only [Except.ok.injEq, Prod.mk.injEq] at h
              rw [← h.1]
              exact ⟨hinv.1, hinv.2⟩

theorem emap_ok {α β : Type} (a : α) (f : α → β) :
    (Except.ok a : Except String α).map f = .ok (f a) := rfl

theorem emap_err {α β : Type} (e : String) (f : α → β) :
    (Except.error e : Except String α).map f = .error e := rfl

theorem exbind_ok {α β : Type} (a : α) (f : α → Except String β) :
    (Except.ok a : Except String α).bind f = f a := rfl

theorem exbind_err {α β : Type} (e : String) (f : α → Except String β) :
    (Except.error e : Except String α).bind f = Except.error e := rfl

theorem confirm_inv_cases (s : MultiSigContract) (ctx : Ctx) (request_id : Nat)
    (s' : MultiSigContract) (v : PromiseOrValue)
    (h : confirm s ctx request_id = .ok (s', v)) :
    ∃ m C, current_member s ctx = some m ∧
      (alookup request_id s.requests).isSome = true ∧
      alookup request_id s.confirmations = some C ∧
      memberKey m ∉ C ∧
      ((C.length + 1 < s.num_confirmations ∧
        s' = { s with
          confirmations :=
            ainsert request_id (C ++ [memberKey m]) s.confirmations } ∧
        v = .value true) ∨
       (C.length + 1 ≥ s.num_confirmations ∧
        ∃ s₁ req, remove_request s request_id = .ok (s₁, req) ∧
          execute_request s₁ ctx req = .ok (s', v))) := by
  cases hm : current_member s ctx with
  | none =>
      exfalso
      unfold confirm assert_valid_request at h
      rw [hm] at h
      simp [ebind_err] at h
  | some m =>
      cases hr : alookup request_id s.requests with
      | none =>
          exfalso
          unfold confirm assert_valid_request at h
          rw [hm, hr] at h
          simp [ebind_err] at h
      | some rws =>
          cases hc : alookup request_id s.confirmations with
          | none =>
              exfalso
              unfold confirm assert_valid_request at h
              rw [hm, hr, hc] at h
              simp [ebind_err] at h
          | some C =>
              rw [confirm_eq s ctx request_id m C hm (by rw [hr]; rfl) hc] at h
              by_cases hmem : memberKey m ∈ C
              · rw [if_pos hmem] at h
                cases h
              · rw [if_neg hmem] at h
                refine ⟨m, C, rfl, rfl, rfl, hmem, ?_⟩
                by_cases hq : C.length + 1 ≥ s.num_confirmations
                · rw [if_pos hq] at h
                  cases hrr : remove_request s request_id with
                  | error e =>
                      rw [hrr, exbind_err] at h
                      cases h
                  | ok sr =>
                      obtain ⟨s₁, req⟩ := sr
                      rw [hrr, exbind_ok] at h
                      exact Or.inr ⟨hq, s₁, req, rfl, h⟩
                · rw [if_neg hq] at h
                  simp only [Except.ok.injEq, Prod.mk.injEq] at h
                  exact Or.inl ⟨by omega, h.1.symm, h.2.symm⟩

theorem delete_request_ok_inv (s : MultiSigContract) (ctx : Ctx) (request_id : Nat)
    (s' : MultiSigContract) (h : delete_request s ctx request_id = .ok s') :
    ∃ m rws, current_member s ctx = some m ∧
      alookup request_id s.requests = some rws ∧
      (alookup request_id s.confirmations).isSome = true ∧
      ctx.block_timestamp > rws.added_timestamp + REQUEST_COOLDOWN ∧
      ∃ req, remove_request s request_id = .ok (s', req) := by
  cases hm : current_member s ctx with
  | none =>
      exfalso
      unfold delete_request assert_valid_request at h
      rw [hm] at h
      simp [ebind_err] at h
  | some m =>
      cases hr : alookup request_id s.requests with
      | none =>
          exfalso
          unfold delete_request assert_valid_request at h
          rw [hm, hr] at h
          simp [ebind_err] at h
      | some rws =>
          cases hc : alookup request_id s.confirmations with
          | none =>
              exfalso
              unfold delete_request assert_valid_request at h
              rw [hm, hr, hc] at h
              simp [ebind_err] at h
          | some C =>
              rw [delete_request_eq s ctx request_id m rws hm hr (by rw [hc]; rfl)] at h
              by_cases ht : ctx.block_timestamp > rws.added_timestamp + REQUEST_COOLDOWN
              · rw [if_pos ht] at h
                cases hrr : remove_request s request_id with
                | error e =>
                    rw [hrr, exbind_err] at h
                    cases h
                | ok sr =>
                    obtain ⟨s₁, req⟩ := sr
                    rw [hrr, exbind_ok] at h
                    simp only [Except.ok.injEq] at h
                    refine ⟨m, rws, rfl, rfl, rfl, ht, req, ?_⟩
                    rw [h]
              · rw [if_neg ht] at h
                cases h

theorem add_request_and_confirm_ok_inv (s : MultiSigContract) (ctx : Ctx)
    (req : MultiSigRequest) (s' : MultiSigContract) (id : Nat)
    (h : add_request_and_confirm s ctx req = .ok (s', id)) :
    ∃ s₁ v, add_request s ctx req = .ok (s₁, id) ∧ confirm s₁ ctx id = .ok (s', v) := by
  unfold add_request_and_confirm at h
  cases ha : add_request s ctx req with
  | error e =>
      rw [ha] at h
      cases h
  | ok si =>
      obtain ⟨s₁, id₁⟩ := si
      rw [ha, ebind_ok] at h
      cases hcf : confirm s₁ ctx id₁ with
      | error e =>
          rw [hcf] at h
          cases h
      | ok sv =>
          obtain ⟨s₂, v⟩ := sv
          rw [hcf, ebind_ok] at h
          simp only [Except.ok.injEq, Prod.mk.injEq] at h
          obtain ⟨h1, h2⟩ := h
          subst h1
          subst h2
          refine ⟨s₁, v, ?_, ?_⟩
          · rfl
          · exact hcf

/-- Pairing invariant: the request map and the confirmation map always hold
exactly the same set of request ids. -/
def KeysOk (s : MultiSigContract) : Prop :=
  ∀ id, (alookup id s.requests).isSome = (alookup id s.confirmations).isSome

theorem shrink_keysOk (s s' : MultiSigContract) (h : ShrinkPair s s') (hk : KeysOk s) :
    KeysOk s' := by
  intro id
  rcases h.2 id with ⟨e1, e2⟩ | ⟨e1, e2⟩
  · rw [e1, e2]
    exact hk id
  · rw [e1, e2]
    rfl

theorem remove_request_keysOk (s : MultiSigContract) (request_id : Nat)
    (s₁ : MultiSigContract) (req : MultiSigRequest)
    (h : remove_request s request_id = .ok (s₁, req)) (hk : KeysOk s) : KeysOk s₁ := by
  obtain ⟨rws, hr, -, hs⟩ := remove_request_spec s request_id s₁ req h
  intro id
  rw [hs]
  by_cases hid : id = request_id
  · subst hid
    simp only
    rw [alookup_aremove_self, alookup_aremove_self]
    rfl
  · simp only
    rw [alookup_aremove_ne id request_id _ (fun e => hid e.symm),
        alookup_aremove_ne id request_id _ (fun e => hid e.symm)]
    exact hk id

theorem add_request_keysOk (s : MultiSigContract) (ctx : Ctx) (req : MultiSigRequest)
    (s' : MultiSigContract) (id : Nat)
    (h : add_request s ctx req = .ok (s', id)) (hk : KeysOk s) : KeysOk s' := by
  obtain ⟨m, -, -, -, hs⟩ := add_request_spec s ctx req s' id h
  intro id0
  rw [hs]
  by_cases hid : id0 = s.request_nonce
  · subst hid
    simp only
    rw [alookup_ainsert_self, alookup_ainsert_self]
    rfl
  · simp only
    rw [alookup_ainsert_ne id0 s.request_nonce _ _ (fun e => hid e.symm),
        alookup_ainsert_ne id0 s.request_nonce _ _ (fun e => hid e.symm)]
    exact hk id0

theorem confirm_keysOk (s : MultiSigContract) (ctx : Ctx) (request_id : Nat)
    (s' : MultiSigContract) (v : PromiseOrValue)
    (h : confirm s ctx request_id = .ok (s', v)) (hk : KeysOk s) : KeysOk s' := by
  obtain ⟨m, C, hm, hr, hc, hmem, hcase⟩ := confirm_inv_cases s ctx request_id s' v h
  rcases hcase with ⟨-, hs, -⟩ | ⟨-, s₁, req, hrr, hex⟩
  · intro id0
    rw [hs]
    by_cases hid : id0 = request_id
    · subst hid
      simp only
      rw [alookup_ainsert_self, hr]
      rfl
    · simp only
      rw [alookup_ainsert_ne id0 request_id _ _ (fun e => hid e.symm)]
      exact hk id0
  · have hk₁ := remove_request_keysOk s request_id s₁ req hrr hk
    unfold execute_request at hex
    exact shrink_keysOk s₁ s' (exec_shrink ctx req.receiver_id req.actions.length
      req.actions s₁ _ s' v hex) hk₁

theorem step_keysOk (s : MultiSigContract) (op : Op) (s' : MultiSigContract)
    (h : step s op = .ok s') (hk : KeysOk s) : KeysOk s' := by
  cases op with
  | addRequest ctx req =>
      simp only [step] at h
      cases ha : add_request s ctx req with
      | error e =>
          rw [ha, emap_err] at h
          cases h
      | ok si =>
          rw [ha, emap_ok] at h
          simp only [Except.ok.injEq] at h
          rw [← h]
          exact add_request_keysOk s ctx req si.1 si.2 (by rw [ha]) hk
  | addRequestAndConfirm ctx req =>
      simp only [step] at h
      cases ha : add_request_and_confirm s ctx req with
      | error e =>
          rw [ha, emap_err] at h
          cases h
      | ok si =>
          rw [ha, emap_ok] at h
          simp only [Except.ok.injEq] at h
          obtain ⟨s₁, v, ha1, hc1⟩ :=
            add_request_and_confirm_ok_inv s ctx req si.1 si.2 (by rw [ha])
          rw [← h]
          exact confirm_keysOk s₁ ctx si.2 si.1 v hc1
            (add_request_keysOk s ctx req s₁ si.2 ha1 hk)
  | confirmOp ctx request_id =>
      simp only [step] at h
      cases hcf : confirm s ctx request_id with
      | error e =>
          rw [hcf, emap_err] at h
          cases h
      | ok sv =>
          rw [hcf, emap_ok] at h
          simp only [Except.ok.injEq] at h
          rw [← h]
          exact confirm_keysOk s ctx request_id sv.1 sv.2 (by rw [hcf]) hk
  | deleteRequest ctx request_id =>
      simp only [step] at h
      obtain ⟨m, rws, -, -, -, -, req, hrr⟩ :=
        delete_request_ok_inv s ctx request_id s' h
      exact remove_request_keysOk s request_id s' req hrr hk

theorem remove_request_gone (s : MultiSigContract) (request_id : Nat)
    (s₁ : MultiSigContract) (req : MultiSigRequest) (id : Nat)
    (h : remove_request s request_id = .ok (s₁, req)) (hn : id < s.request_nonce)
    (hr : alookup id s.requests = none) (hc : alookup id s.confirmations = none) :
    id < s₁.request_nonce ∧ alookup id s₁.requests = none ∧
    alookup id s₁.confirmations = none := by
  obtain ⟨rws, -, -, hs⟩ := remove_request_spec s request_id s₁ req h
  rw [hs]
  refine ⟨hn, ?_, ?_⟩
  · by_cases hid : id = request_id
    · subst hid
      exact alookup_aremove_self id s.requests
    · rw [alookup_aremove_ne id request_id _ (fun e => hid e.symm)]
      exact hr
  · by_cases hid : id = request_id
    · subst hid
      exact alookup_aremove_self id s.confirmations
    · rw [alookup_aremove_ne id request_id _ (fun e => hid e.symm)]
      exact hc

theorem add_request_gone (s : MultiSigContract) (ctx : Ctx) (req : MultiSigRequest)
    (s₁ : MultiSigContract) (rid : Nat) (id : Nat)
    (h : add_request s ctx req = .ok (s₁, rid)) (hn : id < s.request_nonce)
    (hr : alookup id s.requests = none) (hc : alookup id s.confirmations = none) :
    id < s₁.request_nonce ∧ alookup id s₁.requests = none ∧
    alookup id s₁.confirmations = none := by
  obtain ⟨m, -, -, -, hs⟩ := add_request_spec s ctx req s₁ rid h
  rw [hs]
  have hne : s.request_nonce ≠ id := by omega
  refine ⟨by simp only; omega, ?_, ?_⟩
  · simp only
    rw [alookup_ainsert_ne id s.request_nonce _ _ hne]
    exact hr
  · simp only
    rw [alookup_ainsert_ne id s.request_nonce _ _ hne]
    exact hc

theorem confirm_gone (s : MultiSigContract) (ctx : Ctx) (rid : Nat)
    (s' : MultiSigContract) (v : PromiseOrValue) (id : Nat)
    (h : confirm s ctx rid = .ok (s', v)) (hn : id < s.request_nonce)
    (hr : alookup id s.requests = none) (hc : alookup id s.confirmations = none) :
    id < s'.request_nonce ∧ alookup id s'.requests = none ∧
    alookup id s'.confirmations = none := by
  obtain ⟨m, C, -, -, hcC, -, hcase⟩ := confirm_inv_cases s ctx rid s' v h
  rcases hcase with ⟨-, hs, -⟩ | ⟨-, s₁, req, hrr, hex⟩
  · rw [hs]
    have hne : rid ≠ id := by
      intro e
      rw [e, hc] at hcC
      cases hcC
    refine ⟨hn, hr, ?_⟩
    simp only
    rw [alookup_ainsert_ne id rid _ _ hne]
    exact hc
  · obtain ⟨hn₁, hr₁, hc₁⟩ := remove_request_gone s rid s₁ req id hrr hn hr hc
    unfold execute_request at hex
    have hshr := exec_shrink ctx req.receiver_id req.actions.length req.actions s₁ _ s' v hex
    refine ⟨by rw [hshr.1]; exact hn₁, ?_, ?_⟩
    · rcases hshr.2 id with ⟨e1, -⟩ | ⟨e1, -⟩
      · rw [e1]
        exact hr₁
      · exact e1
    · rcases hshr.2 id with ⟨-, e2⟩ | ⟨-, e2⟩
      · rw [e2]
        exact hc₁
      · exact e2

theorem step_gone (s : MultiSigContract) (op : Op) (s' : MultiSigContract) (id : Nat)
    (h : step s op = .ok s') (hn : id < s.request_nonce)
    (hr : alookup id s.requests = none) (hc : alookup id s.confirmations = none) :
    id < s'.request_nonce ∧ alookup id s'.requests = none ∧
    alookup id s'.confirmations = none := by
  cases op with
  | addRequest ctx req =>
      simp only [step] at h
      cases ha : add_request s ctx req with
      | error e =>
          rw [ha, emap_err] at h
          cases h
      | ok si =>
          rw [ha, emap_ok] at h
          simp only [Except.ok.injEq] at h
          rw [← h]
          exact add_request_gone s ctx req si.1 si.2 id (by rw [ha]) hn hr hc
  | addRequestAndConfirm ctx req =>
      simp only [step] at h
      cases ha : add_request_and_confirm s ctx req with
      | error e =>
          rw [ha, emap_err] at h
          cases h
      | ok si =>
          rw [ha, emap_ok] at h
          simp only [Except.ok.injEq] at h
          obtain ⟨s₁, v, ha1, hc1⟩ :=
            add_request_and_confirm_ok_inv s ctx req si.1 si.2 (by rw [ha])
          obtain ⟨hn₁, hr₁, hc₁⟩ := add_request_gone s ctx req s₁ si.2 id ha1 hn hr hc
          rw [← h]
          exact confirm_gone s₁ ctx si.2 si.1 v id hc1 hn₁ hr₁ hc₁
  | confirmOp ctx rid =>
      simp only [step] at h
      cases hcf : confirm s ctx rid with
      | error e =>
          rw [hcf, emap_err] at h
          cases h
      | ok sv =>
          rw [hcf, emap_ok] at h
          simp only [Except.ok.injEq] at h
          rw [← h]
          exact confirm_gone s ctx rid sv.1 sv.2 id (by rw [hcf]) hn hr hc
  | deleteRequest ctx rid =>
      simp only [step] at h
      obtain ⟨m, rws, -, -, -, -, req, hrr⟩ := delete_request_ok_inv s ctx rid s' h
      exact remove_request_gone s rid s' req id hrr hn hr hc

/-- The side condition under which an operation preserves the membership
invariant: any `SetNumConfirmations` value that the operation could dispatch
is bounded by the current member count. -/
def OpBound (s : MultiSigContract) : Op → Prop
  | .addRequest _ _ => True
  | .deleteRequest _ _ => True
  | .addRequestAndConfirm _ req =>
      ∀ n, MultiSigRequestAction.SetNumConfirmations n ∈ req.actions →
        n ≤ s.members.length
  | .confirmOp _ request_id =>
      ∀ rws, alookup request_id s.requests = some rws →
        ∀ n, MultiSigRequestAction.SetNumConfirmations n ∈ rws.request.actions →
          n ≤ s.members.length

theorem confirm_memberInv (s : MultiSigContract) (ctx : Ctx) (rid : Nat)
    (s' : MultiSigContract) (v : PromiseOrValue)
    (h : confirm s ctx rid = .ok (s', v)) (hinv : MemberInv s)
    (hb : ∀ rws, alookup rid s.requests = some rws →
      ∀ n, MultiSigRequestAction.SetNumConfirmations n ∈ rws.request.actions →
        n ≤ s.members.length) : MemberInv s' := by
  obtain ⟨m, C, -, -, -, -, hcase⟩ := confirm_inv_cases s ctx rid s' v h
  rcases hcase with ⟨-, hs, -⟩ | ⟨-, s₁, req, hrr, hex⟩
  · rw [hs]
    exact hinv
  · obtain ⟨rws, hrw, hreq, hs₁⟩ := remove_request_spec s rid s₁ req hrr
    have hmem₁ : s₁.members = s.members := by
      rw [hs₁]
    have hnc₁ : s₁.num_confirmations = s.num_confirmations := by
      rw [hs₁]
    unfold execute_request at hex
    refine exec_memberInv ctx req.receiver_id req.actions.length req.actions s₁ _ s' v hex
      ⟨?_, ?_⟩ le_rfl ?_
    · rw [hmem₁]
      exact hinv.1
    · rw [hmem₁, hnc₁]
      exact hinv.2
    · intro n hn
      rw [hmem₁]
      refine hb rws hrw n ?_
      rw [← hreq]
      exact hn

theorem step_memberInv (s : MultiSigContract) (op : Op) (s' : MultiSigContract)
    (h : step s op = .ok s') (hinv : MemberInv s) (hb : OpBound s op) : MemberInv s' := by
  cases op with
  | addRequest ctx req =>
      simp only [step] at h
      cases ha : add_request s ctx req with
      | error e =>
          rw [ha, emap_err] at h
          cases h
      | ok si =>
          rw [ha, emap_ok] at h
          simp only [Except.ok.injEq] at h
          obtain ⟨m, -, -, -, hs⟩ := add_request_spec s ctx req si.1 si.2 (by rw [ha])
          rw [← h, hs]
          exact hinv
  | addRequestAndConfirm ctx req =>
      simp only [step] at h
      cases ha : add_request_and_confirm s ctx req with
      | error e =>
          rw [ha, emap_err] at h
          cases h
      | ok si =>
          rw [ha, emap_ok] at h
          simp only [Except.ok.injEq] at h
          obtain ⟨s₁, v, ha1, hc1⟩ :=
            add_request_and_confirm_ok_inv s ctx req si.1 si.2 (by rw [ha])
          obtain ⟨m, -, -, hid, hs₁⟩ := add_request_spec s ctx req s₁ si.2 ha1
          have hinv₁ : MemberInv s₁ := by
            rw [hs₁]
            exact hinv
          have hb₁ : ∀ rws, alookup si.2 s₁.requests = some rws →
              ∀ n, MultiSigRequestAction.SetNumConfirmations n ∈ rws.request.actions →
                n ≤ s₁.members.length := by
            intro rws hrws n hn
            rw [hs₁] at hrws
            simp only at hrws
            rw [hid] at hrws
            rw [alookup_ainsert_self] at hrws
            have hrws' : rws = ⟨req, m, ctx.block_timestamp⟩ := by
              cases hrws
              rfl
            rw [hs₁]
            simp only
            refine hb n ?_
            rw [hrws'] at hn
            exact hn
          rw [← h]
          exact confirm_memberInv s₁ ctx si.2 si.1 v hc1 hinv₁ hb₁
  | confirmOp ctx rid =>
      simp only [step] at h
      cases hcf : confirm s ctx rid with
      | error e =>
          rw [hcf, emap_err] at h
          cases h
      | ok sv =>
          rw [hcf, emap_ok] at h
          simp only [Except.ok.injEq] at h
          rw [← h]
          exact confirm_memberInv s ctx rid sv.1 sv.2 (by rw [hcf]) hinv hb
  | deleteRequest ctx rid =>
      simp only [step] at h
      obtain ⟨m, rws, -, -, -, -, req, hrr⟩ := delete_request_ok_inv s ctx rid s' h
      obtain ⟨rws', -, -, hs⟩ := remove_request_spec s rid s' req hrr
      rw [hs]
      exact hinv

theorem current_member_congr (s s' : MultiSigContract) (ctx : Ctx)
    (h : s'.members = s.members) : current_member s' ctx = current_member s ctx := by
  unfold current_member
  rw [h]

/-!
Concrete fixtures used by witnesses and counterexamples.
-/

def wAlice : MultisigMember := .Account "alice"

def wBob : MultisigMember := .Account "bob"

def wCarol : MultisigMember := .Account "carol"

def wCtx (caller : String) (t : Nat) : Ctx := ⟨"multisig", caller, "pk", t⟩

def wTransfer : MultiSigRequest := ⟨"bob", [.Transfer 1000]⟩

/-- A 2-of-3 multisig holding one pending transfer request (id 0) submitted by
alice with no confirmations yet. -/
def wS2 : MultiSigContract :=
  ⟨[wAlice, wBob, wCarol], 2, 1, [(0, ⟨wTransfer, wAlice, 0⟩)], [(0, [])],
    [(memberKey wAlice, 1)], 12⟩

theorem add_request_eq (s : MultiSigContract) (ctx : Ctx) (req : MultiSigRequest)
    (m : MultisigMember) (hm : current_member s ctx = some m)
    (hl : (alookup (memberKey m) s.num_requests_pk).getD 0 + 1 ≤
      s.active_requests_limit) :
    add_request s ctx req = .ok ({ s with
      num_requests_pk := ainsert (memberKey m)
        ((alookup (memberKey m) s.num_requests_pk).getD 0 + 1) s.num_requests_pk,
      requests := ainsert s.request_nonce ⟨req, m, ctx.block_timestamp⟩ s.requests,
      confirmations := ainsert s.request_nonce [] s.confirmations,
      request_nonce := s.request_nonce + 1 }, s.request_nonce) := by
  unfold add_request
  rw [hm]
  dsimp only
  rw [if_pos hl]

theorem add_request_limit_err (s : MultiSigContract) (ctx : Ctx) (req : MultiSigRequest)
    (m : MultisigMember) (hm : current_member s ctx = some m)
    (hl : ¬ ((alookup (memberKey m) s.num_requests_pk).getD 0 + 1 ≤
      s.active_requests_limit)) :
    add_request s ctx req =
      .error "Account has too many active requests. Confirm or delete some." := by
  unfold add_request
  rw [hm]
  dsimp only
  rw [if_neg hl]

/-- Submit the same request `N` times in a row (used to state the rate-limit
round trip). -/
def addN (ctx : Ctx) (req : MultiSigRequest) :
    Nat → MultiSigContract → Except String MultiSigContract
  | 0, s => .ok s
  | n + 1, s => (add_request s ctx req).bind (fun si => addN ctx req n si.1)

theorem addN_count (ctx : Ctx) (req : MultiSigRequest) (m : MultisigMember) :
    ∀ (N : Nat) (s : MultiSigContract) (c : Nat),
    current_member s ctx = some m → get_num_requests_per_member s m = c →
    c + N ≤ s.active_requests_limit →
    ∃ s', addN ctx req N s = .ok s' ∧ get_num_requests_per_member s' m = c + N := by
  intro N
  induction N with
  | zero =>
      intro s c hm hc _
      exact ⟨s, rfl, hc.trans (by omega)⟩
  | succ n ih =>
      intro s c hm hc hl
      have hc' : (alookup (memberKey m) s.num_requests_pk).getD 0 = c := hc
      have hl1 : (alookup (memberKey m) s.num_requests_pk).getD 0 + 1 ≤
          s.active_requests_limit := by
        rw [hc']
        omega
      simp only [addN]
      rw [add_request_eq s ctx req m hm hl1, exbind_ok]
      have hm₁ : current_member ({ s with
          num_requests_pk := ainsert (memberKey m)
            ((alookup (memberKey m) s.num_requests_pk).getD 0 + 1) s.num_requests_pk,
          requests := ainsert s.request_nonce ⟨req, m, ctx.block_timestamp⟩ s.requests,
          confirmations := ainsert s.request_nonce [] s.confirmations,
          request_nonce := s.request_nonce + 1 } : MultiSigContract) ctx = some m := by
        exact hm
      have hcount₁ : get_num_requests_per_member ({ s with
          num_requests_pk := ainsert (memberKey m)
            ((alookup (memberKey m) s.num_requests_pk).getD 0 + 1) s.num_requests_pk,
          requests := ainsert s.request_nonce ⟨req, m, ctx.block_timestamp⟩ s.requests,
          confirmations := ainsert s.request_nonce [] s.confirmations,
          request_nonce := s.request_nonce + 1 } : MultiSigContract) m = c + 1 := by
        unfold get_num_requests_per_member
        simp only
        rw [salookup_ainsert_self, hc']
        rfl
      obtain ⟨s', h1, h2⟩ := ih _ (c + 1) hm₁ hcount₁ (by simp only; omega)
      exact ⟨s', h1, h2.trans (by omega)⟩

def NonceBound (s : MultiSigContract) : Prop :=
  ∀ id, (alookup id s.requests).isSome = true → id < s.request_nonce

theorem remove_request_nonceBound (s : MultiSigContract) (request_id : Nat)
    (s₁ : MultiSigContract) (req : MultiSigRequest)
    (h : remove_request s request_id = .ok (s₁, req)) (hn : NonceBound s) :
    NonceBound s₁ := by
  obtain ⟨rws, -, -, hs⟩ := remove_request_spec s request_id s₁ req h
  intro id hid
  rw [hs] at hid ⊢
  simp only at hid ⊢
  by_cases he : id = request_id
  · subst he
    rw [alookup_aremove_self] at hid
    cases hid
  · rw [alookup_aremove_ne id request_id _ (fun e => he e.symm)] at hid
    exact hn id hid

theorem confirm_nonceBound (s : MultiSigContract) (ctx : Ctx) (rid : Nat)
    (s' : MultiSigContract) (v : PromiseOrValue)
    (h : confirm s ctx rid = .ok (s', v)) (hn : NonceBound s) : NonceBound s' := by
  obtain ⟨m, C, -, -, -, -, hcase⟩ := confirm_inv_cases s ctx rid s' v h
  rcases hcase with ⟨-, hs, -⟩ | ⟨-, s₁, req, hrr, hex⟩
  · intro id hid
    rw [hs] at hid ⊢
    exact hn id hid
  · have hn₁ := remove_request_nonceBound s rid s₁ req hrr hn
    unfold execute_request at hex
    have hshr := exec_shrink ctx req.receiver_id req.actions.length req.actions s₁ _ s' v hex
    intro id hid
    rw [hshr.1]
    rcases hshr.2 id with ⟨e1, -⟩ | ⟨e1, -⟩
    · rw [e1] at hid
      exact hn₁ id hid
    · rw [e1] at hid
      cases hid

theorem add_request_nonceBound (s : MultiSigContract) (ctx : Ctx) (req : MultiSigRequest)
    (s₁ : MultiSigContract) (rid : Nat)
    (h : add_request s ctx req = .ok (s₁, rid)) (hn : NonceBound s) : NonceBound s₁ := by
  obtain ⟨m, -, -, -, hs⟩ := add_request_spec s ctx req s₁ rid h
  intro id hid
  rw [hs] at hid ⊢
  simp only at hid ⊢
  by_cases he : id = s.request_nonce
  · omega
  · rw [alookup_ainsert_ne id s.request_nonce _ _ (fun e => he e.symm)] at hid
    have := hn id hid
    omega

theorem step_nonceBound (s : MultiSigContract) (op : Op) (s' : MultiSigContract)
    (h : step s op = .ok s') (hn : NonceBound s) : NonceBound s' := by
  cases op with
  | addRequest ctx req =>
      simp only [step] at h
      cases ha : add_request s ctx req with
      | error e =>
          rw [ha, emap_err] at h
          cases h
      | ok si =>
          rw [ha, emap_ok] at h
          simp only [Except.ok.injEq] at h
          rw [← h]
          exact add_request_nonceBound s ctx req si.1 si.2 (by rw [ha]) hn
  | addRequestAndConfirm ctx req =>
      simp only [step] at h
      cases ha : add_request_and_confirm s ctx req with
      | error e =>
          rw [ha, emap_err] at h
          cases h
      | ok si =>
          rw [ha, emap_ok] at h
          simp only [Except.ok.injEq] at h
          obtain ⟨s₁, v, ha1, hc1⟩ :=
            add_request_and_confirm_ok_inv s ctx req si.1 si.2 (by rw [ha])
          rw [← h]
          exact confirm_nonceBound s₁ ctx si.2 si.1 v hc1
            (add_request_nonceBound s ctx req s₁ si.2 ha1 hn)
  | confirmOp ctx rid =>
      simp only [step] at h
      cases hcf : confirm s ctx rid with
      | error e =>
          rw [hcf, emap_err] at h
          cases h
      | ok sv =>
          rw [hcf, emap_ok] at h
          simp only [Except.ok.injEq] at h
          rw [← h]
          exact confirm_nonceBound s ctx rid sv.1 sv.2 (by rw [hcf]) hn
  | deleteRequest ctx rid =>
      simp only [step] at h
      obtain ⟨m, rws, -, -, -, -, req, hrr⟩ := delete_request_ok_inv s ctx rid s' h
      exact remove_request_nonceBound s rid s' req hrr hn

theorem reachable_nonceBound (s : MultiSigContract) (hR : Reachable s) : NonceBound s := by
  induction hR with
  | init ctx mems k s p h =>
      obtain ⟨-, -, -, -, hreq, -, -, -⟩ := new_spec ctx mems k s p h
      intro id hid
      rw [hreq] at hid
      cases hid
  | next s op s' hR hstep ih => exact step_nonceBound s op s' hstep ih

/-!
The claims.
-/

/-- C2: with quorum size `k = num_confirmations`, a `confirm` by a member who
has not yet confirmed leaves the request pending and returns `true` whenever
fewer than `k - 1` distinct members have confirmed so far (the confirmation
set, which by `memberKey_inj` holds one canonical string per distinct
confirmed member, has size `< k - 1 + 1`), and triggers dispatch of the
request (removal followed by `execute_request`) exactly on the call that
brings the count of distinct confirming members to `k`; it never dispatches
earlier. -/
theorem C2_quorum_exactness (s : MultiSigContract) (ctx : Ctx) (request_id : Nat)
    (m : MultisigMember) (C : List String)
    (hm : current_member s ctx = some m)
    (hr : (alookup request_id s.requests).isSome = true)
    (hc : alookup request_id s.confirmations = some C)
    (hnew : memberKey m ∉ C) :
    (C.length + 1 < s.num_confirmations →
      confirm s ctx request_id = .ok ({ s with
        confirmations := ainsert request_id (C ++ [memberKey m]) s.confirmations },
        .value true) ∧
      alookup request_id ({ s with
        confirmations := ainsert request_id (C ++ [memberKey m]) s.confirmations } :
          MultiSigContract).requests = alookup request_id s.requests) ∧
    (C.length + 1 ≥ s.num_confirmations →
      confirm s ctx request_id =
        (remove_request s request_id).bind (fun sr => execute_request sr.1 ctx sr.2)) := by
  rw [confirm_eq s ctx request_id m C hm hr hc, if_neg hnew]
  constructor
  · intro hlt
    rw [if_neg (by omega)]
    exact ⟨rfl, rfl⟩
  · intro hge
    rw [if_pos hge]

theorem C2_witness :
    confirm wS2 (wCtx "alice" 5) 0 = .ok ({ wS2 with
      confirmations := ainsert 0 ([] ++ [memberKey wAlice]) wS2.confirmations },
      .value true) :=
  ((C2_quorum_exactness wS2 (wCtx "alice" 5) 0 wAlice [] (by decide) (by decide)
    (by decide) (by decide)).1 (by decide)).1

/-- C5: a `confirm` by a member whose canonical key is already in the
request's confirmation set fails with "already confirmed" and produces no new
state (an `error` result models a panic, which aborts the call with no state
change), even when quorum has not been reached; consequently, after a member's
successful pending `confirm`, a second `confirm` by the same member fails the
same way, so `confirm` succeeds at most once per (member, request) pair. -/
theorem C5_already_confirmed (s : MultiSigContract) (ctx : Ctx) (request_id : Nat)
    (m : MultisigMember) (C : List String)
    (hm : current_member s ctx = some m)
    (hr : (alookup request_id s.requests).isSome = true)
    (hc : alookup request_id s.confirmations = some C) :
    (memberKey m ∈ C →
      confirm s ctx request_id =
        .error "Already confirmed this request with this key") ∧
    (memberKey m ∉ C → C.length + 1 < s.num_confirmations →
      ∀ s', confirm s ctx request_id = .ok (s', .value true) →
        confirm s' ctx request_id =
          .error "Already confirmed this request with this key") := by
  constructor
  · intro hmem
    rw [confirm_eq s ctx request_id m C hm hr hc, if_pos hmem]
  · intro hnew hlt s' h
    rw [confirm_eq s ctx request_id m C hm hr hc, if_neg hnew,
      if_neg (by omega)] at h
    simp only [Except.ok.injEq, Prod.mk.injEq] at h
    have hs' : s' = { s with
        confirmations := ainsert request_id (C ++ [memberKey m]) s.confirmations } :=
      h.1.symm
    have hm' : current_member s' ctx = some m := by
      rw [current_member_congr s s' ctx (by rw [hs'])]
      exact hm
    have hr' : (alookup request_id s'.requests).isSome = true := by
      rw [hs']
      exact hr
    have hc' : alookup request_id s'.confirmations =
        some (C ++ [memberKey m]) := by
      rw [hs']
      simp only
      exact alookup_ainsert_self request_id (C ++ [memberKey m]) s.confirmations
    rw [confirm_eq s' ctx request_id m (C ++ [memberKey m]) hm' hr' hc',
      if_pos (by simp)]

theorem C5_witness :
    confirm { wS2 with
      confirmations := ainsert 0 ([] ++ [memberKey wAlice]) wS2.confirmations }
      (wCtx "alice" 5) 0 =
      .error "Already confirmed this request with this key" :=
  (C5_already_confirmed wS2 (wCtx "alice" 5) 0 wAlice [] (by decide) (by decide)
    (by decide)).2 (by decide) (by decide) _ (by decide)

/-- C7: for a pending request (valid caller, stored record and confirmation
set), `delete_request` fails with the cooldown error whenever
`now - created_at ≤ REQUEST_COOLDOWN` (the code requires the strict
inequality `now > created_at + REQUEST_COOLDOWN`), and succeeds whenever
`now - created_at > REQUEST_COOLDOWN`, removing both the stored request and
its confirmation set. -/
theorem C7_cooldown_boundary (s : MultiSigContract) (ctx : Ctx) (request_id : Nat)
    (m : MultisigMember) (rws : MultiSigRequestWithSigner)
    (hm : current_member s ctx = some m)
    (hr : alookup request_id s.requests = some rws)
    (hc : (alookup request_id s.confirmations).isSome = true) :
    (ctx.block_timestamp - rws.added_timestamp ≤ REQUEST_COOLDOWN →
      delete_request s ctx request_id =
        .error "Request cannot be deleted immediately after creation.") ∧
    (ctx.block_timestamp - rws.added_timestamp > REQUEST_COOLDOWN →
      ∃ s', delete_request s ctx request_id = .ok s' ∧
        alookup request_id s'.requests = none ∧
        alookup request_id s'.confirmations = none) := by
  rw [delete_request_eq s ctx request_id m rws hm hr hc]
  constructor
  · intro hle
    rw [if_neg (by omega)]
  · intro hgt
    rw [if_pos (by omega), remove_request_eq s request_id rws hr, exbind_ok]
    refine ⟨_, rfl, ?_, ?_⟩
    · simp only
      exact alookup_aremove_self request_id s.requests
    · simp only
      exact alookup_aremove_self request_id s.confirmations

theorem C7_witness :
    delete_request wS2 (wCtx "bob" 3) 0 =
      .error "Request cannot be deleted immediately after creation." :=
  (C7_cooldown_boundary wS2 (wCtx "bob" 3) 0 wBob ⟨wTransfer, wAlice, 0⟩
    (by decide) (by decide) (by decide)).1 (by decide)

/-- C10: any member — not only the submitter — may delete a pending request
past its cooldown: for a caller `m` distinct from the submitter, the deletion
succeeds, the submitter's rate-limit counter is decremented (clamped at
zero), and the caller's own counter is unchanged (their canonical keys differ
by `memberKey_inj`). -/
theorem C10_delete_by_any_member (s : MultiSigContract) (ctx : Ctx) (request_id : Nat)
    (m : MultisigMember) (rws : MultiSigRequestWithSigner)
    (hm : current_member s ctx = some m)
    (hr : alookup request_id s.requests = some rws)
    (hc : (alookup request_id s.confirmations).isSome = true)
    (hne : m ≠ rws.member)
    (ht : ctx.block_timestamp - rws.added_timestamp > REQUEST_COOLDOWN) :
    ∃ s', delete_request s ctx request_id = .ok s' ∧
      get_num_requests_per_member s' rws.member =
        get_num_requests_per_member s rws.member - 1 ∧
      get_num_requests_per_member s' m = get_num_requests_per_member s m := by
  rw [delete_request_eq s ctx request_id m rws hm hr hc, if_pos (by omega),
    remove_request_eq s request_id rws hr, exbind_ok]
  refine ⟨_, rfl, ?_, ?_⟩
  · unfold get_num_requests_per_member
    simp only
    rw [salookup_ainsert_self]
    rfl
  · unfold get_num_requests_per_member
    simp only
    rw [salookup_ainsert_ne _ _ _ _
      (fun e => hne (memberKey_inj m rws.member e.symm))]

def wS2gone : MultiSigContract :=
  ⟨[wAlice, wBob, wCarol], 2, 1, [], [], [(memberKey wAlice, 0)], 12⟩

theorem C10_witness :
    get_num_requests_per_member wS2gone wAlice =
      get_num_requests_per_member wS2 wAlice - 1 ∧
    get_num_requests_per_member wS2gone wBob = get_num_requests_per_member wS2 wBob := by
  obtain ⟨s', h1, h2, h3⟩ := C10_delete_by_any_member wS2 (wCtx "bob" 900000000005) 0
    wBob ⟨wTransfer, wAlice, 0⟩ (by decide) (by decide) (by decide) (by decide)
    (by decide)
  have he : delete_request wS2 (wCtx "bob" 900000000005) 0 = .ok wS2gone := by decide
  rw [he] at h1
  simp only [Except.ok.injEq] at h1
  rw [h1]
  exact ⟨h2, h3⟩

/-- C6: the rate-limit round trip. A submission by a member with current
outstanding count `c` succeeds exactly when `c + 1 ≤ active_requests_limit`,
raising the count to `c + 1` (so `N` submissions from zero raise it to `N`),
and fails with the limit error when `c + 1` would exceed the limit; resolving
a request — via `remove_request`, which both the quorum-reaching `confirm`
and `delete_request` go through — decrements the submitter's count by one,
with `Nat` truncated subtraction capturing the code's explicit clamp at zero
(`if num_requests > 0`), so the count can never go negative. -/
theorem C6_rate_limit_round_trip :
    (∀ (s : MultiSigContract) (ctx : Ctx) (req : MultiSigRequest) (m : MultisigMember),
      current_member s ctx = some m →
      (get_num_requests_per_member s m + 1 ≤ s.active_requests_limit →
        ∃ s', add_request s ctx req = .ok (s', s.request_nonce) ∧
          get_num_requests_per_member s' m = get_num_requests_per_member s m + 1) ∧
      (get_num_requests_per_member s m + 1 > s.active_requests_limit →
        add_request s ctx req =
          .error "Account has too many active requests. Confirm or delete some.")) ∧
    (∀ (s : MultiSigContract) (ctx : Ctx) (req : MultiSigRequest) (m : MultisigMember)
      (N : Nat), current_member s ctx = some m →
      get_num_requests_per_member s m = 0 → N ≤ s.active_requests_limit →
      ∃ s', addN ctx req N s = .ok s' ∧ get_num_requests_per_member s' m = N) ∧
    (∀ (s : MultiSigContract) (request_id : Nat) (rws : MultiSigRequestWithSigner)
      (s' : MultiSigContract) (r : MultiSigRequest),
      alookup request_id s.requests = some rws →
      remove_request s request_id = .ok (s', r) →
      get_num_requests_per_member s' rws.member =
        get_num_requests_per_member s rws.member - 1) ∧
    (∀ (s : MultiSigContract) (ctx : Ctx) (request_id : Nat)
      (rws : MultiSigRequestWithSigner) (s' : MultiSigContract),
      alookup request_id s.requests = some rws →
      delete_request s ctx request_id = .ok s' →
      get_num_requests_per_member s' rws.member =
        get_num_requests_per_member s rws.member - 1) := by
  have hremove : ∀ (s : MultiSigContract) (request_id : Nat)
      (rws : MultiSigRequestWithSigner) (s' : MultiSigContract) (r : MultiSigRequest),
      alookup request_id s.requests = some rws →
      remove_request s request_id = .ok (s', r) →
      get_num_requests_per_member s' rws.member =
        get_num_requests_per_member s rws.member - 1 := by
    intro s request_id rws s' r hr h
    rw [remove_request_eq s request_id rws hr] at h
    simp only [Except.ok.injEq, Prod.mk.injEq] at h
    rw [← h.1]
    unfold get_num_requests_per_member
    simp only
    rw [salookup_ainsert_self]
    rfl
  refine ⟨?_, ?_, hremove, ?_⟩
  · intro s ctx req m hm
    constructor
    · intro hl
      rw [add_request_eq s ctx req m hm hl]
      refine ⟨_, rfl, ?_⟩
      unfold get_num_requests_per_member
      simp only
      rw [salookup_ainsert_self]
      rfl
    · intro hl
      refine add_request_limit_err s ctx req m hm ?_
      have he : (alookup (memberKey m) s.num_requests_pk).getD 0 =
          get_num_requests_per_member s m := rfl
      omega
  · intro s ctx req m N hm hz hN
    have := addN_count ctx req m N s 0 hm hz (by omega)
    simpa using this
  · intro s ctx request_id rws s' hr h
    obtain ⟨m, rws', -, hr', -, -, req, hrr⟩ := delete_request_ok_inv s ctx request_id s' h
    exact hremove s request_id rws s' req hr hrr

theorem C6_witness :
    add_request ⟨[wAlice], 1, 12, [], [], [(memberKey wAlice, 12)], 12⟩
      (wCtx "alice" 0) wTransfer =
      .error "Account has too many active requests. Confirm or delete some." :=
  (C6_rate_limit_round_trip.1 ⟨[wAlice], 1, 12, [], [], [(memberKey wAlice, 12)], 12⟩
    (wCtx "alice" 0) wTransfer wAlice (by decide)).2 (by decide)

/-- C3: on the `confirm` call that reaches quorum, the request record and its
confirmation set are removed and the submitter's rate-limit counter is
decremented first — `confirm` equals `execute_request` run on the
already-purged state, so removal precedes dispatch and is unaffected by the
dispatch outcome (a failed external promise is outside the contract and
cannot restore state); afterwards both getters fail with "No such request",
and the id can never be resurrected: every later operation preserves
"removed and below the nonce", since fresh requests are only stored under the
strictly increasing nonce. -/
theorem C3_removal_before_dispatch (s : MultiSigContract) (ctx : Ctx)
    (request_id : Nat) (m : MultisigMember) (C : List String)
    (rws : MultiSigRequestWithSigner)
    (hR : Reachable s)
    (hm : current_member s ctx = some m)
    (hr : alookup request_id s.requests = some rws)
    (hc : alookup request_id s.confirmations = some C)
    (hnew : memberKey m ∉ C)
    (hq : C.length + 1 ≥ s.num_confirmations) :
    ∃ s₁, remove_request s request_id = .ok (s₁, rws.request) ∧
      alookup request_id s₁.requests = none ∧
      alookup request_id s₁.confirmations = none ∧
      get_request s₁ request_id = .error "No such request" ∧
      get_confirmations s₁ request_id = .error "No such request" ∧
      get_num_requests_per_member s₁ rws.member =
        get_num_requests_per_member s rws.member - 1 ∧
      confirm s ctx request_id = execute_request s₁ ctx rws.request ∧
      request_id < s₁.request_nonce ∧
      (∀ (t : MultiSigContract) (op : Op) (t' : MultiSigContract),
        request_id < t.request_nonce →
        alookup request_id t.requests = none →
        alookup request_id t.confirmations = none →
        step t op = .ok t' →
        request_id < t'.request_nonce ∧ alookup request_id t'.requests = none ∧
          alookup request_id t'.confirmations = none) := by
  have hrem := remove_request_eq s request_id rws hr
  refine ⟨_, hrem, ?_, ?_, ?_, ?_, ?_, ?_, ?_, ?_⟩
  · simp only
    exact alookup_aremove_self request_id s.requests
  · simp only
    exact alookup_aremove_self request_id s.confirmations
  · unfold get_request
    rw [show alookup request_id (aremove request_id s.requests) = none from
      alookup_aremove_self request_id s.requests]
  · unfold get_confirmations
    rw [show alookup request_id (aremove request_id s.confirmations) = none from
      alookup_aremove_self request_id s.confirmations]
  · unfold get_num_requests_per_member
    simp only
    rw [salookup_ainsert_self]
    rfl
  · rw [confirm_eq s ctx request_id m C hm (by rw [hr]; rfl) hc, if_neg hnew,
      if_pos hq, hrem, exbind_ok]
  · have hnb := reachable_nonceBound s hR
    simp only
    exact hnb request_id (by rw [hr]; rfl)
  · intro t op t' h1 h2 h3 hstep
    exact step_gone t op t' request_id hstep h1 h2 h3

def wS0 : MultiSigContract := ⟨[wAlice], 1, 0, [], [], [], 12⟩

def wS1 : MultiSigContract :=
  ⟨[wAlice], 1, 1, [(0, ⟨wTransfer, wAlice, 0⟩)], [(0, [])], [(memberKey wAlice, 1)], 12⟩

def wGone : MultiSigContract :=
  ⟨[wAlice], 1, 1, [], [], [(memberKey wAlice, 0)], 12⟩

theorem wS1_reachable : Reachable wS1 :=
  Reachable.next wS0 (.addRequest (wCtx "alice" 0) wTransfer) wS1
    (Reachable.init (wCtx "alice" 0) [wAlice] 1 wS0 ⟨"multisig", []⟩ (by decide))
    (by decide)

theorem C3_witness :
    get_confirmations wGone 0 = .error "No such request" := by
  obtain ⟨s₁, h1, -, -, -, h5, -, -, -, -⟩ :=
    C3_removal_before_dispatch wS1 (wCtx "alice" 0) 0 wAlice []
      ⟨wTransfer, wAlice, 0⟩ wS1_reachable (by decide) (by decide) (by decide)
      (by decide) (by decide)
  have he : remove_request wS1 0 = .ok (wGone, wTransfer) := by decide
  rw [he] at h1
  simp only [Except.ok.injEq, Prod.mk.injEq] at h1
  rw [← h1.1] at h5
  exact h5

/-- C9: in every reachable state the request map and the confirmation map
hold exactly the same set of request identifiers (every operation inserts
and removes entries in the two maps together), and therefore the
"Internal error: confirmations mismatch requests" branch of
`assert_valid_request` can never be taken. -/
theorem C9_requests_confirmations_match (s : MultiSigContract) (hR : Reachable s) :
    (∀ id, (alookup id s.requests).isSome = (alookup id s.confirmations).isSome) ∧
    (∀ (ctx : Ctx) (id : Nat), assert_valid_request s ctx id ≠
      .error "Internal error: confirmations mismatch requests") := by
  have hk : KeysOk s := by
    induction hR with
    | init ctx mems k s p h =>
        obtain ⟨-, -, -, -, hreq, hconf, -, -⟩ := new_spec ctx mems k s p h
        intro id
        rw [hreq, hconf]
        rfl
    | next s op s' hR hstep ih => exact step_keysOk s op s' hstep ih
  refine ⟨hk, ?_⟩
  intro ctx id
  unfold assert_valid_request
  by_cases h1 : (current_member s ctx).isNone = true
  · rw [if_pos h1]
    intro he
    exact absurd he (by decide)
  · rw [if_neg h1]
    cases hr : alookup id s.requests with
    | none =>
        simp only [Option.isNone_none, if_true]
        intro he
        exact absurd he (by decide)
    | some r =>
        simp only [Option.isNone_some, if_false]
        have hcs : (alookup id s.confirmations).isSome = true := by
          rw [← hk id, hr]
          rfl
        have hcn : (alookup id s.confirmations).isNone ≠ true := by
          cases hco : alookup id s.confirmations with
          | none =>
              rw [hco] at hcs
              cases hcs
          | some c =>
              intro he
              cases he
        rw [if_neg hcn]
        intro he
        cases he

theorem C9_witness :
    assert_valid_request wS1 (wCtx "alice" 0) 5 ≠
      .error "Internal error: confirmations mismatch requests" :=
  (C9_requests_confirmations_match wS1 wS1_reachable).2 (wCtx "alice" 0) 5

/-- C8 (amended): executing a `SetNumConfirmations` or
`SetActiveRequestsLimit` action bundled with any other action, or with a
receiver different from the contract's own account, always fails — with the
"separate request" error (respectively the self-request error) unless an
earlier action of the bundle fails first with its own error; as the sole
action of a self-request it synchronously mutates the configuration and
returns `Value true`, producing no external asynchronous operation. -/
theorem C8_single_action (s : MultiSigContract) (ctx : Ctx) (req : MultiSigRequest) :
    ((((∃ n, MultiSigRequestAction.SetNumConfirmations n ∈ req.actions) ∨
       (∃ n, MultiSigRequestAction.SetActiveRequestsLimit n ∈ req.actions)) ∧
      (req.actions.length ≠ 1 ∨ req.receiver_id ≠ ctx.current_account_id)) →
      ∀ res, execute_request s ctx req ≠ .ok res) ∧
    (∀ n, req.actions = [.SetNumConfirmations n] →
      req.receiver_id = ctx.current_account_id →
      execute_request s ctx req = .ok ({ s with num_confirmations := n }, .value true)) ∧
    (∀ n, req.actions = [.SetActiveRequestsLimit n] →
      req.receiver_id = ctx.current_account_id →
      execute_request s ctx req =
        .ok ({ s with active_requests_limit := n }, .value true)) := by
  refine ⟨?_, ?_, ?_⟩
  · rintro ⟨hcfg, hbad⟩ res h
    unfold execute_request at h
    by_cases hlen : req.actions.length = 1
    · rcases hbad with hl | hrecv
      · exact hl hlen
      · obtain ⟨a, ha⟩ := List.length_eq_one.mp hlen
        rw [ha] at h
        rcases hcfg with ⟨n, hn⟩ | ⟨n, hn⟩
        · rw [ha] at hn
          have han : a = .SetNumConfirmations n := by
            rcases List.mem_cons.mp hn with he | he
            · exact he.symm
            · cases he
          rw [han] at h
          simp only [execute_actions, assert_one_action_only, assert_self_request,
            if_neg hrecv, ebind_err] at h
          cases h
        · rw [ha] at hn
          have han : a = .SetActiveRequestsLimit n := by
            rcases List.mem_cons.mp hn with he | he
            · exact he.symm
            · cases he
          rw [han] at h
          simp only [execute_actions, assert_one_action_only, assert_self_request,
            if_neg hrecv, ebind_err] at h
          cases h
    · exact exec_config_not_ok ctx req.receiver_id req.actions.length req.actions
        hlen hcfg s (Promise.new req.receiver_id) res.1 res.2 h
  · intro n ha hrecv
    unfold execute_request
    rw [ha]
    simp only [execute_actions, assert_one_action_only, assert_self_request,
      if_pos hrecv, List.length_cons, List.length_nil, ebind_ok, if_pos rfl]
    rw [if_pos trivial, ebind_ok]
  · intro n ha hrecv
    unfold execute_request
    rw [ha]
    simp only [execute_actions, assert_one_action_only, assert_self_request,
      if_pos hrecv, List.length_cons, List.length_nil, ebind_ok, if_pos rfl]
    rw [if_pos trivial, ebind_ok]

theorem C8_counterexample :
    execute_request wS0 (wCtx "alice" 0)
        ⟨"multisig", [.DeleteMember wAlice, .SetNumConfirmations 1]⟩ =
      .error
        "Removing given member will make total number of members below number of confirmations" ∧
    ("Removing given member will make total number of members below number of confirmations" ≠
        "This method should be a separate request" ∧
     "Removing given member will make total number of members below number of confirmations" ≠
        "This method only works when receiver_id is equal to current_account_id") := by
  decide

theorem C8_witness :
    execute_request wS0 (wCtx "alice" 0) ⟨"multisig", [.SetNumConfirmations 1]⟩ =
      .ok ({ wS0 with num_confirmations := 1 }, .value true) :=
  (C8_single_action wS0 (wCtx "alice" 0)
    ⟨"multisig", [.SetNumConfirmations 1]⟩).2.1 1 rfl rfl

def wSetReq : MultiSigRequest := ⟨"multisig", [.SetNumConfirmations 2]⟩

def wSetS1 : MultiSigContract :=
  ⟨[wAlice], 1, 1, [(0, ⟨wSetReq, wAlice, 0⟩)], [(0, [])], [(memberKey wAlice, 1)], 12⟩

def wSetS2 : MultiSigContract :=
  ⟨[wAlice], 2, 1, [], [], [(memberKey wAlice, 0)], 12⟩

/-- C1 (amended): construction fails when the member list is shorter than the
quorum, and from a duplicate-free member list it establishes the invariant
"duplicate-free member set of size ≥ quorum"; the invariant is preserved by
every operation whose dispatched `SetNumConfirmations` values (if any) are
bounded by the member count. As `C1_counterexample` shows, the code enforces
no such bound itself: a duplicated construction list or an executed
`SetNumConfirmations` above the member count breaks the invariant. -/
theorem C1_member_count_quorum :
    (∀ (ctx : Ctx) (mems : List MultisigMember) (k : Nat), mems.length < k →
      new ctx mems k =
        .error "Members list must be equal or larger than number of confirmations") ∧
    (∀ (ctx : Ctx) (mems : List MultisigMember) (k : Nat) (s : MultiSigContract)
      (p : Promise), mems.Nodup → new ctx mems k = .ok (s, p) → MemberInv s) ∧
    (∀ (s : MultiSigContract) (op : Op) (s' : MultiSigContract),
      MemberInv s → OpBound s op → step s op = .ok s' → MemberInv s') := by
  refine ⟨?_, ?_, fun s op s' hinv hb h => step_memberInv s op s' h hinv hb⟩
  · intro ctx mems k hlt
    unfold new
    rw [if_neg (by omega)]
  · intro ctx mems k s p hnodup h
    obtain ⟨hge, hmem, hnc, -, -, -, -, -⟩ := new_spec ctx mems k s p h
    have hfold : mems.foldl (fun acc m => setInsert m acc) [] = [] ++ mems :=
      foldl_setInsert_of_nodup mems [] (by simpa using hnodup)
    rw [List.nil_append] at hfold
    constructor
    · rw [hmem, hfold]
      exact hnodup
    · rw [hmem, hfold, hnc]
      exact hge

theorem C1_counterexample :
    (new (wCtx "alice" 0) [wAlice, wAlice] 2 =
      .ok (⟨[wAlice], 2, 0, [], [], [], 12⟩, ⟨"multisig", []⟩) ∧
      (⟨[wAlice], 2, 0, [], [], [], 12⟩ : MultiSigContract).members.length <
        (⟨[wAlice], 2, 0, [], [], [], 12⟩ : MultiSigContract).num_confirmations) ∧
    (step wS0 (.addRequest (wCtx "alice" 0) wSetReq) = .ok wSetS1 ∧
     wS0.num_confirmations ≤ wS0.members.length ∧
     wSetS1.num_confirmations ≤ wSetS1.members.length ∧
     step wSetS1 (.confirmOp (wCtx "alice" 5) 0) = .ok wSetS2 ∧
     wSetS2.members.length < wSetS2.num_confirmations) := by
  decide

theorem C1_witness : MemberInv ⟨[wAlice, wBob], 2, 0, [], [], [], 12⟩ :=
  C1_member_count_quorum.2.1 (wCtx "alice" 0) [wAlice, wBob] 2
    ⟨[wAlice, wBob], 2, 0, [], [], [], 12⟩ ⟨"multisig", []⟩ (by decide) (by decide)

/-- Modelled from the spec: one transaction of a multi-transaction request
(§3 "Request": an ordered batch of Transactions, each naming a receiver and
an ordered list of Actions). The source's `MultiSigRequest` holds exactly one
transaction, and src contains no multi-transaction machinery. -/
structure SpecTransaction where
  receiver_id : String
  actions : List MultiSigRequestAction
deriving DecidableEq, Repr

/-- Modelled from the spec: a request as an ordered list of transactions
(§3), absent from src. -/
structure SpecRequest where
  transactions : List SpecTransaction
deriving DecidableEq, Repr

/-- Modelled from the spec: the Execution Dispatcher's state (§4.4 and §9):
the set of registered continuations, keyed by
`(request_id, next_transaction_index)`, and the log of composite operations
submitted to the external environment, each carrying every action of one
transaction in declared order. Absent from src. -/
structure DispatcherState where
  continuations : List (Nat × Nat)
  submitted : List (Nat × Nat × SpecTransaction)
deriving DecidableEq, Repr

/-- Modelled from the spec (§4.4): submit transaction `txIndex` of the
request as one composite external operation and register the continuation
`(request_id, txIndex + 1)`. Absent from src. -/
def specDispatchTx (d : DispatcherState) (request_id : Nat) (req : SpecRequest)
    (txIndex : Nat) : DispatcherState :=
  match req.transactions[txIndex]? with
  | none => d
  | some tx =>
      ⟨d.continuations ++ [(request_id, txIndex + 1)],
       d.submitted ++ [(request_id, txIndex, tx)]⟩

/-- Modelled from the spec (§4.4): `execute(request)` dispatches only the
first transaction. Absent from src. -/
def specExecute (d : DispatcherState) (request_id : Nat) (req : SpecRequest) :
    DispatcherState :=
  specDispatchTx d request_id req 0

/-- Modelled from the spec (§4.4): `on_transaction_completed(id, index)` —
callable only by the contract itself; consumes the continuation; on success
either finishes (when `index + 1` equals the transaction count) or dispatches
the next transaction; on failure abandons the remainder. Absent from src. -/
def on_transaction_completed (d : DispatcherState) (callerIsContract : Bool)
    (request_id : Nat) (req : SpecRequest) (txIndex : Nat) (success : Bool) :
    Except String DispatcherState :=
  if ¬ callerIsContract then
    .error "Callback can only be called by the contract itself"
  else
    let d₁ : DispatcherState :=
      ⟨setRemove (request_id, txIndex + 1) d.continuations, d.submitted⟩
    if success then
      if txIndex + 1 = req.transactions.length then .ok d₁
      else .ok (specDispatchTx d₁ request_id req (txIndex + 1))
    else .ok d₁

/-- C4: for a request with more than one transaction, dispatch submits only
the first transaction's actions as one composite operation and registers the
continuation `(request_id, 1)`; `on_transaction_completed` is rejected unless
the caller is the contract itself; a success report for transaction `i`
dispatches exactly transaction `i + 1` (registering `(request_id, i + 2)`),
and a failure report abandons all remaining transactions (nothing further is
submitted). -/
theorem C4_sequential_dispatch (d : DispatcherState) (request_id : Nat)
    (req : SpecRequest) (h2 : 1 < req.transactions.length) :
    (∃ tx0, req.transactions[0]? = some tx0 ∧
      (specExecute d request_id req).submitted = d.submitted ++ [(request_id, 0, tx0)] ∧
      (specExecute d request_id req).continuations =
        d.continuations ++ [(request_id, 1)]) ∧
    (∀ (i : Nat) (b : Bool) (d' : DispatcherState),
      on_transaction_completed d false request_id req i b ≠ .ok d') ∧
    (∀ (i : Nat) (tx : SpecTransaction), req.transactions[i + 1]? = some tx →
      i + 1 ≠ req.transactions.length →
      on_transaction_completed d true request_id req i true =
        .ok ⟨setRemove (request_id, i + 1) d.continuations ++ [(request_id, i + 2)],
             d.submitted ++ [(request_id, i + 1, tx)]⟩) ∧
    (∀ i : Nat, on_transaction_completed d true request_id req i false =
      .ok ⟨setRemove (request_id, i + 1) d.continuations, d.submitted⟩) := by
  refine ⟨?_, ?_, ?_, ?_⟩
  · have h0 : ∃ tx0, req.transactions[0]? = some tx0 := by
      cases ht : req.transactions[0]? with
      | none =>
          rw [List.getElem?_eq_none_iff] at ht
          omega
      | some tx0 => exact ⟨tx0, rfl⟩
    obtain ⟨tx0, ht0⟩ := h0
    refine ⟨tx0, ht0, ?_, ?_⟩
    · unfold specExecute specDispatchTx
      rw [ht0]
    · unfold specExecute specDispatchTx
      rw [ht0]
  · intro i b d' h
    unfold on_transaction_completed at h
    simp only [Bool.not_false, if_pos] at h
    cases h
  · intro i tx htx hne
    unfold on_transaction_completed
    rw [if_neg (by simp)]
    dsimp only
    rw [if_pos rfl, if_neg hne]
    unfold specDispatchTx
    rw [htx]
  · intro i
    unfold on_transaction_completed
    rw [if_neg (by simp)]
    dsimp only
    rw [if_neg (by simp)]

def wTxA : SpecTransaction := ⟨"bob", [.Transfer 1000]⟩

def wTxB : SpecTransaction := ⟨"carol", [.Transfer 2000]⟩

theorem C4_witness :
    (specExecute ⟨[], []⟩ 7 ⟨[wTxA, wTxB]⟩).submitted = [] ++ [(7, 0, wTxA)] ∧
    (specExecute ⟨[], []⟩ 7 ⟨[wTxA, wTxB]⟩).continuations = [] ++ [(7, 1)] := by
  obtain ⟨tx0, ht0, h1, h2⟩ :=
    (C4_sequential_dispatch ⟨[], []⟩ 7 ⟨[wTxA, wTxB]⟩ (by decide)).1
  have htx : tx0 = wTxA := by
    have he : (SpecRequest.mk [wTxA, wTxB]).transactions[0]? = some wTxA := rfl
    rw [he] at ht0
    simp only [Option.some.injEq] at ht0
    exact ht0.symm
  rw [htx] at h1
  exact ⟨h1, h2⟩

end Multisig
